import Mathlib

/-!
Verification of the SiliconCompiler core (`siliconcompiler/core.py`) against its
natural-language specification.

The development shallowly embeds the Python data model: a configuration tree
(`chip.cfg`) is a nested Python dict whose values are dicts, strings, lists or
`None`.  We model Python values with the inductive type `PyVal` below.  Python
floats are modelled by their textual representation (the canonical `repr`
string): the code only ever moves float values between their string form and
back (`str(...)` on write, `float(...)` on read), and `float(repr(x)) == x`
exactly in Python, so carrying the representation string is faithful for every
equality the claims need.  Machine integers do not occur (Python ints are
unbounded), so `Int` is the exact model.

Python raising an uncaught exception (KeyError, TypeError, NameError, ...) is
modelled by returning `Option.none` from the embedded operation; a normal
return of the Python value `None` is modelled by the `PyVal.null` value.
-/

/-- Model of a Python value as stored in the Chip configuration dictionary.
`node` is a dict with string keys in insertion order (Python 3.7+ dicts keep
insertion order; SC keys are always strings), `l` a list, `s` a str,
`i` an int, `f` a float carried as its repr string, `b` a bool and
`null` is Python `None`. -/
inductive PyVal where
  | node : List (String × PyVal) → PyVal
  | s : String → PyVal
  | l : List PyVal → PyVal
  | i : Int → PyVal
  | f : String → PyVal
  | b : Bool → PyVal
  | null : PyVal
deriving Repr

/-- Entries of a Python dict: association list in insertion order. -/
abbrev Entries := List (String × PyVal)

/-- Dictionary lookup, first matching key (Python dicts have unique keys;
on well-formed inputs there is at most one). -/
def lookupK : Entries → String → Option PyVal
  | [], _ => Option.none
  | (k', v) :: rest, k => if k' = k then some v else lookupK rest k

/-- Python `k in d` on a dict. -/
def hasK (es : Entries) (k : String) : Bool :=
  (lookupK es k).isSome

/-- Python dict assignment `d[k] = v`: overwrite in place if the key exists,
otherwise append at the end (insertion order). -/
def setK : Entries → String → PyVal → Entries
  | [], k, v => [(k, v)]
  | (k', v') :: rest, k, v =>
      if k' = k then (k', v) :: rest else (k', v') :: setK rest k v

/-- Python `del d[k]` (first occurrence). -/
def delK : Entries → String → Entries
  | [], _ => []
  | (k', v') :: rest, k => if k' = k then rest else (k', v') :: delK rest k

theorem lookupK_setK_self (es : Entries) (k : String) (v : PyVal) :
    lookupK (setK es k v) k = some v := by
  induction es with
  | nil => simp [setK, lookupK]
  | cons hd tl ih =>
      by_cases h : hd.1 = k
      · simp [setK, lookupK, h]
      · simp [setK, lookupK, h, ih]

theorem lookupK_setK_ne (es : Entries) (k k' : String) (v : PyVal) (h : k ≠ k') :
    lookupK (setK es k v) k' = lookupK es k' := by
  induction es with
  | nil => simp [setK, lookupK, h]
  | cons hd tl ih =>
      by_cases h1 : hd.1 = k
      · subst h1
        simp [setK, lookupK, h]
      · simp [setK, lookupK, h1, ih]

/-- Writing back the value already present leaves the dict unchanged. -/
theorem setK_lookup_self (es : Entries) (k : String) (v : PyVal)
    (h : lookupK es k = some v) : setK es k v = es := by
  induction es with
  | nil => simp [lookupK] at h
  | cons hd tl ih =>
      obtain ⟨k0, v0⟩ := hd
      by_cases h1 : k0 = k
      · simp [lookupK, h1] at h
        simp [setK, h1, h]
      · simp [lookupK, h1] at h
        simp [setK, h1, ih h]

theorem hasK_setK_self (es : Entries) (k : String) (v : PyVal) :
    hasK (setK es k v) k = true := by
  simp [hasK, lookupK_setK_self]

/-- Decimal digit to character, as Python prints it. -/
def digitCh (d : Nat) : Char := Char.ofNat (48 + d)

/-- Character back to decimal digit value. -/
def chDigit (c : Char) : Nat := c.toNat - 48

/-- Is the character an ASCII decimal digit. -/
def isDigitCh (c : Char) : Bool := 48 ≤ c.toNat && c.toNat ≤ 57

/-- Fuel-driven decimal printer (structural recursion so that the kernel can
evaluate it); the fuel argument only needs to be at least the number. -/
def natDigitsAux : Nat → Nat → List Char
  | 0, m => [digitCh m]
  | fuel + 1, m =>
      if m < 10 then [digitCh m]
      else natDigitsAux fuel (m / 10) ++ [digitCh (m % 10)]

/-- Decimal representation of a natural number as a list of characters
(most significant first); model of Python `str` on a non-negative int. -/
def natDigits (m : Nat) : List Char := natDigitsAux m m

theorem natDigitsAux_succ (f m : Nat) :
    natDigitsAux (f + 1) m =
      if m < 10 then [digitCh m]
      else natDigitsAux f (m / 10) ++ [digitCh (m % 10)] := rfl

theorem natDigitsAux_fuel (m : Nat) : ∀ fuel, m ≤ fuel → natDigitsAux fuel m = natDigits m := by
  induction m using Nat.strong_induction_on with
  | _ m ih =>
    intro fuel hf
    by_cases h : m < 10
    · cases fuel with
      | zero =>
          have : m = 0 := by omega
          subst this
          rfl
      | succ f =>
          rw [natDigitsAux_succ, if_pos h]
          cases m with
          | zero => rfl
          | succ g => rw [natDigits, natDigitsAux_succ, if_pos h]
    · have hm : 0 < m := by omega
      have hdiv : m / 10 < m := Nat.div_lt_self hm (by norm_num)
      cases fuel with
      | zero => omega
      | succ f =>
          rw [natDigitsAux_succ, if_neg h]
          rw [ih (m / 10) hdiv f (by omega)]
          cases hm2 : m with
          | zero => omega
          | succ g =>
              conv_rhs => rw [natDigits, natDigitsAux_succ]
              rw [if_neg (hm2 ▸ h)]
              rw [ih ((g + 1) / 10) (by omega) g (by omega)]

/-- Model of Python `str(n)` for an int `n`. -/
def intRepr (n : Int) : String :=
  if n < 0 then ⟨'-' :: natDigits n.natAbs⟩ else ⟨natDigits n.toNat⟩

/-- Accumulating decimal parser over characters: `acc` is the value of the
digits consumed so far.  Returns `none` when a non-digit appears. -/
def parseDigits : List Char → Nat → Option Nat
  | [], acc => some acc
  | c :: cs, acc =>
      if isDigitCh c then parseDigits cs (10 * acc + chDigit c) else Option.none

/-- Model of Python `int(s)` applied to a list of characters: optional sign
followed by at least one decimal digit; anything else raises ValueError
(`none`). -/
def parseIntList : List Char → Option Int
  | [] => Option.none
  | c :: cs =>
      if c = '-' then
        if cs.isEmpty then Option.none
        else (parseDigits cs 0).map (fun m => -(m : Int))
      else if c = '+' then
        if cs.isEmpty then Option.none
        else (parseDigits cs 0).map (fun m => (m : Int))
      else (parseDigits (c :: cs) 0).map (fun m => (m : Int))

/-- Model of Python `int(s)` on a string. -/
def parseInt (str : String) : Option Int := parseIntList str.data

theorem digitCh_lt (d : Nat) (h : d < 10) :
    isDigitCh (digitCh d) = true ∧ chDigit (digitCh d) = d := by
  interval_cases d <;> exact ⟨by decide, by decide⟩

theorem parseDigits_append (xs ys : List Char) (acc : Nat) :
    parseDigits (xs ++ ys) acc =
      (parseDigits xs acc).bind (fun m => parseDigits ys m) := by
  induction xs generalizing acc with
  | nil => simp [parseDigits]
  | cons c cs ih =>
      by_cases h : isDigitCh c
      · simp [parseDigits, h, ih]
      · simp [parseDigits, h]

theorem natDigits_lt {m : Nat} (h : m < 10) : natDigits m = [digitCh m] := by
  cases m with
  | zero => rfl
  | succ g => rw [natDigits, natDigitsAux_succ, if_pos h]

theorem natDigits_ge {m : Nat} (h : ¬ m < 10) :
    natDigits m = natDigits (m / 10) ++ [digitCh (m % 10)] := by
  have hm : 0 < m := by omega
  cases hm2 : m with
  | zero => omega
  | succ g =>
      rw [natDigits, natDigitsAux_succ, if_neg (hm2 ▸ h)]
      rw [natDigitsAux_fuel ((g + 1) / 10) g (by omega)]

theorem parseDigits_natDigits (m : Nat) (acc : Nat) :
    parseDigits (natDigits m) acc = some (acc * 10 ^ (natDigits m).length + m) := by
  induction m using Nat.strong_induction_on generalizing acc with
  | _ m ih =>
    by_cases h : m < 10
    · obtain ⟨h1, h2⟩ := digitCh_lt m h
      rw [natDigits_lt h]
      simp only [parseDigits, h1, if_pos, h2, List.length_singleton, pow_one]
      congr 2
      omega
    · have hm : 0 < m := by omega
      have hdiv : m / 10 < m := Nat.div_lt_self hm (by norm_num)
      obtain ⟨h1, h2⟩ := digitCh_lt (m % 10) (Nat.mod_lt m (by norm_num))
      rw [natDigits_ge h, parseDigits_append, ih (m / 10) hdiv acc]
      simp only [Option.some_bind, parseDigits, h1, if_pos, h2]
      rw [List.length_append, List.length_singleton]
      have hpow : acc * 10 ^ ((natDigits (m / 10)).length + 1) =
          acc * 10 ^ (natDigits (m / 10)).length * 10 := by
        ring
      rw [hpow]
      exact congrArg some (by omega)

/-- Round trip: parsing the decimal print of a natural number gives it back. -/
theorem parseDigits_natDigits_zero (m : Nat) :
    parseDigits (natDigits m) 0 = some m := by
  have := parseDigits_natDigits m 0
  simpa using this

theorem natDigits_ne_nil (m : Nat) : natDigits m ≠ [] := by
  by_cases h : m < 10
  · rw [natDigits_lt h]
    simp
  · rw [natDigits_ge h]
    simp

theorem natDigits_head_digit (m : Nat) :
    ∃ c cs, natDigits m = c :: cs ∧ isDigitCh c = true := by
  cases hd : natDigits m with
  | nil => exact absurd hd (natDigits_ne_nil _)
  | cons c cs =>
      refine ⟨c, cs, rfl, ?_⟩
      have hp := parseDigits_natDigits_zero m
      rw [hd] at hp
      by_cases hc : isDigitCh c
      · exact hc
      · simp [parseDigits, hc] at hp

/-- Python round trip `int(str(n)) == n`, in the model. -/
theorem parseInt_intRepr (n : Int) : parseInt (intRepr n) = some n := by
  obtain ⟨c, cs, hd, hdig⟩ := natDigits_head_digit n.natAbs
  have hne1 : c ≠ '-' := by
    intro hc
    rw [hc] at hdig
    exact absurd hdig (by decide)
  have hne2 : c ≠ '+' := by
    intro hc
    rw [hc] at hdig
    exact absurd hdig (by decide)
  have hp := parseDigits_natDigits_zero n.natAbs
  rw [hd] at hp
  by_cases h : n < 0
  · have hstr : (intRepr n).data = '-' :: natDigits n.natAbs := by
      simp [intRepr, if_pos h]
    rw [parseInt, hstr, hd]
    have hred : parseIntList ('-' :: c :: cs) =
        (parseDigits (c :: cs) 0).map (fun m => -(m : Int)) := by
      simp [parseIntList]
    rw [hred, hp]
    have hm : (some n.natAbs).map (fun m => -(m : Int)) = some (-(n.natAbs : Int)) := rfl
    rw [hm]
    exact congrArg some (by omega)
  · have habs : n.natAbs = n.toNat := by omega
    have hstr : (intRepr n).data = natDigits n.natAbs := by
      simp [intRepr, if_neg h, habs]
    rw [parseInt, hstr, hd]
    have hred : parseIntList (c :: cs) =
        (parseDigits (c :: cs) 0).map (fun m => (m : Int)) := by
      simp [parseIntList, hne1, hne2]
    rw [hred, hp]
    have hm : (some n.natAbs).map (fun m => (m : Int)) = some ((n.natAbs : Int)) := rfl
    rw [hm]
    exact congrArg some (by omega)
mutual

/-- Boolean equality of modelled Python values (Python `==` on the values the
schema stores). -/
def pvBeq : PyVal → PyVal → Bool
  | PyVal.node kvs1, PyVal.node kvs2 => pvBeqEntries kvs1 kvs2
  | PyVal.s a, PyVal.s b => a = b
  | PyVal.l a, PyVal.l b => pvBeqList a b
  | PyVal.i a, PyVal.i b => a = b
  | PyVal.f a, PyVal.f b => a = b
  | PyVal.b a, PyVal.b b => a = b
  | PyVal.null, PyVal.null => true
  | _, _ => false

/-- Elementwise equality of lists of Python values. -/
def pvBeqList : List PyVal → List PyVal → Bool
  | [], [] => true
  | a :: as0, b :: bs0 => pvBeq a b && pvBeqList as0 bs0
  | _, _ => false

/-- Entrywise equality of dict entries. -/
def pvBeqEntries : List (String × PyVal) → List (String × PyVal) → Bool
  | [], [] => true
  | (k1, v1) :: r1, (k2, v2) :: r2 => k1 = k2 && pvBeq v1 v2 && pvBeqEntries r1 r2
  | _, _ => false

end

instance : BEq PyVal := ⟨pvBeq⟩

mutual

/-- Python `repr` of a modelled value (no escaping inside strings; the schema
never stores strings containing quotes). -/
def pyRepr : PyVal → String
  | PyVal.node kvs => "\x7b" ++ pyReprEntries kvs ++ "\x7d"
  | PyVal.s v => "\x27" ++ v ++ "\x27"
  | PyVal.l items => "[" ++ pyReprItems items ++ "]"
  | PyVal.i n => intRepr n
  | PyVal.f v => v
  | PyVal.b true => "True"
  | PyVal.b false => "False"
  | PyVal.null => "None"

/-- Comma-separated reprs of list items. -/
def pyReprItems : List PyVal → String
  | [] => ""
  | [v] => pyRepr v
  | v :: rest => pyRepr v ++ ", " ++ pyReprItems rest

/-- Comma-separated reprs of dict entries. -/
def pyReprEntries : List (String × PyVal) → String
  | [] => ""
  | [(k, v)] => "\x27" ++ k ++ "\x27: " ++ pyRepr v
  | (k, v) :: rest => "\x27" ++ k ++ "\x27: " ++ pyRepr v ++ ", " ++ pyReprEntries rest

end

/-- Python `str(x)`: identical to `repr` except on strings, where it returns
the string itself.  Note `str(True) = "True"` (capital T) — this drives the
behaviour of bool parameters below. -/
def pyStr : PyVal → String
  | PyVal.s v => v
  | v => pyRepr v

/-- Model of Python `int(x)`.  `int` of a float truncates; floats are carried
as repr strings in this model, and no claim applies `int` to a float, so that
case (and the TypeError cases) are modelled as a raise. -/
def intCast : PyVal → Option PyVal
  | PyVal.i n => some (PyVal.i n)
  | PyVal.s v => (parseInt v).map PyVal.i
  | PyVal.b true => some (PyVal.i 1)
  | PyVal.b false => some (PyVal.i 0)
  | _ => Option.none

/-- Model of Python `float(x)` under the floats-as-repr-strings convention:
a string input is kept as the representation (faithful for the strings
produced by `str` of a float, which are the only ones the claims exercise). -/
def floatCast : PyVal → Option PyVal
  | PyVal.f v => some (PyVal.f v)
  | PyVal.s v => some (PyVal.f v)
  | PyVal.i n => some (PyVal.f (intRepr n))
  | PyVal.b true => some (PyVal.f "1.0")
  | PyVal.b false => some (PyVal.f "0.0")
  | _ => Option.none

/-- Python `isinstance(x, list)`. -/
def isListV : PyVal → Bool
  | PyVal.l _ => true
  | _ => false

/-- Does `p` occur as a leading run of `l` (helper for regex models). -/
def leadMatch : List Char → List Char → Bool
  | [], _ => true
  | _ :: _, [] => false
  | p :: ps, c :: cs => p = c && leadMatch ps cs

/-- Does `pat` occur as a contiguous run anywhere in the list. -/
def subMatch : List Char → List Char → Bool
  | pat, [] => leadMatch pat []
  | pat, c :: cs => leadMatch pat (c :: cs) || subMatch pat cs

/-- Model of `re.match(r'\[', typestr)`: the type string starts with `[`. -/
def typeIsList (t : String) : Bool := leadMatch ['['] t.data

/-- Model of `re.search('int', typestr)`. -/
def typeHasInt (t : String) : Bool := subMatch "int".data t.data

/-- Model of `re.search('float', typestr)`. -/
def typeHasFloat (t : String) : Bool := subMatch "float".data t.data

/-- Apply a cast to every element, first failure raises (models the
`for item in selval` cast loops of `_search`). -/
def castList (f : PyVal → Option PyVal) : List PyVal → Option (List PyVal)
  | [] => some []
  | x :: xs =>
      match f x, castList f xs with
      | some y, some ys => some (y :: ys)
      | _, _ => Option.none

/-- Materialization of the stored value from the default before a write
(core.py 714-716): `if 'value' not in cfg[param]: cfg[param]['value'] =
cfg[param]['defvalue']`; `none` is the KeyError when `defvalue` is missing. -/
def withValue (pkvs : Entries) : Option Entries :=
  if hasK pkvs "value" then some pkvs
  else (lookupK pkvs "defvalue").map (setK pkvs "value")

/-- Leaf-level `set`/`add` of `Chip._search` (core.py lines 704-743): the
branch taken when `mode in ('set','add')` and two args remain.  `kvs` is the
dict holding the parameter, `k` the parameter key, `val` the value argument.
Returns the updated dict, whether `chip.error` was set, and the returned
Python value; `none` models an uncaught exception.  `tc` abstracts
`schema_typecheck` (defined in schema.py, which is not part of this source
tree); its result is only ORed into the error flag, exactly as in the source,
so every theorem below holds for an arbitrary `tc`. -/
def leafSetAdd (tc : PyVal → PyVal → Bool) (kvs : Entries) (k : String)
    (val : PyVal) (field mode : String) : Option (Entries × Bool × PyVal) :=
  if ¬ hasK kvs k ∧ ¬ hasK kvs "default" then
    some (kvs, true, PyVal.null)
  else
    let kvs1 := if hasK kvs k then kvs else
      match lookupK kvs "default" with
      | some d => setK kvs k d
      | Option.none => kvs
    match lookupK kvs1 k with
    | some (PyVal.node pkvs) =>
        match lookupK pkvs "type" with
        | some (PyVal.s tstr) =>
            let listT := typeIsList tstr
            match withValue pkvs with
            | Option.none => Option.none
            | some pkvs2 =>
              let errField := ¬ hasK pkvs2 field ∧ field ≠ "value"
              let errType := ¬ tc (PyVal.node pkvs2) val
              let step : Option (Entries × Bool) :=
                if mode = "set" then
                  if ¬ listT ∧ ¬ isListV val then
                    some (setK pkvs2 field (PyVal.s (pyStr val)), false)
                  else if listT ∧ ¬ isListV val then
                    some (setK pkvs2 field (PyVal.l [PyVal.s (pyStr val)]), false)
                  else if listT ∧ isListV val then
                    some (setK pkvs2 field val, false)
                  else
                    some (pkvs2, true)
                else
                  if listT ∧ ¬ isListV val then
                    match lookupK pkvs2 field with
                    | some (PyVal.l xs) =>
                        some (setK pkvs2 field (PyVal.l (xs ++ [PyVal.s (pyStr val)])), false)
                    | _ => Option.none
                  else if listT ∧ isListV val then
                    match val, lookupK pkvs2 field with
                    | PyVal.l vs, some (PyVal.l xs) =>
                        some (setK pkvs2 field (PyVal.l (xs ++ vs)), false)
                    | _, _ => Option.none
                  else
                    some (pkvs2, true)
              match step with
              | Option.none => Option.none
              | some (pkvs3, errIll) =>
                  match lookupK pkvs3 field with
                  | some res =>
                      some (setK kvs1 k (PyVal.node pkvs3),
                            decide errField || errType || errIll, res)
                  | Option.none => Option.none
        | _ => Option.none
    | some _ => Option.none
    | Option.none => Option.none

/-- The type-directed coercion applied by `_search` when reading a value
(core.py 761-784), on the selected value `selval` and declared type string:
int/float sequences cast element-wise, scalar int/float cast from the stored
text, bool compares the stored value with the token `'true'`, everything else
is returned as stored; an unset scalar (`None`) is returned as `None`. -/
def valueCoerceCode (tstr : String) (selval : PyVal) : Option (Bool × PyVal) :=
  if typeIsList tstr then
    match selval with
    | PyVal.l items =>
        if typeHasInt tstr then
          (castList intCast items).map (fun xs => (false, PyVal.l xs))
        else if typeHasFloat tstr then
          (castList floatCast items).map (fun xs => (false, PyVal.l xs))
        else some (false, PyVal.l items)
    | _ => Option.none
  else
    match selval with
    | PyVal.null => some (false, PyVal.null)
    | _ =>
      if tstr = "int" then (intCast selval).map (fun x => (false, x))
      else if tstr = "float" then (floatCast selval).map (fun x => (false, x))
      else if tstr = "bool" then some (false, PyVal.b (pvBeq selval (PyVal.s "true")))
      else some (false, selval)

/-- The `field == 'value'` read of a leaf parameter dict (core.py 755-784):
select the stored value or else the default, then coerce by declared type. -/
def leafValueRead (pkvs : Entries) : Option (Bool × PyVal) :=
  match (if hasK pkvs "value" then lookupK pkvs "value"
         else lookupK pkvs "defvalue") with
  | Option.none => Option.none
  | some selval =>
    match lookupK pkvs "type" with
    | some (PyVal.s tstr) => valueCoerceCode tstr selval
    | _ => Option.none

/-- Leaf-level `get`/`getkeys` of `Chip._search` (core.py lines 745-787): the
branch taken when a single arg remains.  Returns whether `chip.error` was set
and the returned value (the tree is never modified on this branch). -/
def leafGetKeys (kvs : Entries) (k : String) (field mode : String) :
    Option (Bool × PyVal) :=
  if ¬ hasK kvs k then some (true, PyVal.null)
  else if mode = "getkeys" then
    match lookupK kvs k with
    | some (PyVal.node pkvs) => some (false, PyVal.l (pkvs.map (fun e => PyVal.s e.1)))
    | _ => Option.none
  else
    match lookupK kvs k with
    | some (PyVal.node pkvs) =>
        if ¬ hasK pkvs field ∧ field ≠ "value" then some (true, PyVal.null)
        else if field = "value" then leafValueRead pkvs
        else
          match lookupK pkvs field with
          | some v => some (false, v)
          | Option.none => Option.none
    | some _ => Option.none
    | Option.none => Option.none

/-- Model of `Chip._search` (core.py lines 681-794).  `args` is the Python
`*args` list (keys, plus the value as last element for set/add); the result is
the updated cfg (Python mutates it in place), whether `chip.error` was set by
this call, and the returned value.  `Option.none` models an uncaught
exception escaping `_search` — in particular the `KeyError` raised at line
792 when an intermediate key is missing and the dict has no `default`
prototype. -/
def search (tc : PyVal → PyVal → Bool) (cfg : PyVal) (args : List PyVal)
    (field mode : String) : Option (PyVal × Bool × PyVal) :=
  match cfg with
  | PyVal.node kvs =>
    match args with
    | [] => Option.none
    | [a] =>
        match a with
        | PyVal.s k => (leafGetKeys kvs k field mode).map
            (fun er => (PyVal.node kvs, er.1, er.2))
        | _ => Option.none
    | a :: b :: rest =>
        if (mode = "set" ∨ mode = "add") ∧ (b :: rest).length = 1 then
          match a, rest with
          | PyVal.s k, [] => (leafSetAdd tc kvs k b field mode).map
              (fun r => (PyVal.node r.1, r.2.1, r.2.2))
          | _, _ => Option.none
        else
          match a with
          | PyVal.s k =>
              match (if hasK kvs k then some kvs
                     else (lookupK kvs "default").map (setK kvs k)) with
              | Option.none => Option.none
              | some kvs2 =>
                match lookupK kvs2 k with
                | some child =>
                    (search tc child (b :: rest) field mode).map
                      (fun r => (PyVal.node (setK kvs2 k r.1), r.2.1, r.2.2))
                | Option.none => Option.none
          | _ => Option.none
  | _ => Option.none

/-- Model of `Chip.get` (core.py lines 476-521): thin wrapper calling
`_search` with `mode='get'`. -/
def chipGet (tc : PyVal → PyVal → Bool) (cfg : PyVal) (keys : List String)
    (field : String) : Option (PyVal × Bool × PyVal) :=
  search tc cfg (keys.map PyVal.s) field "get"

/-- Model of `Chip.set` (core.py lines 569-612): `_search` with
`field='value'`, `mode='set'` and the value appended to the key list. -/
def chipSet (tc : PyVal → PyVal → Bool) (cfg : PyVal) (keys : List String)
    (val : PyVal) : Option (PyVal × Bool × PyVal) :=
  search tc cfg (keys.map PyVal.s ++ [val]) "value" "set"

/-- Model of `Chip.add` (core.py lines 615-659). -/
def chipAdd (tc : PyVal → PyVal → Bool) (cfg : PyVal) (keys : List String)
    (val : PyVal) : Option (PyVal × Bool × PyVal) :=
  search tc cfg (keys.map PyVal.s ++ [val]) "value" "add"

/-- Extract the strings of a list of Python values (for `list(dict_keys)`). -/
def strList : List PyVal → Option (List String)
  | [] => some []
  | PyVal.s v :: rest => (strList rest).map (fun ks => v :: ks)
  | _ => Option.none

/-- Model of `Chip.getkeys` with a non-empty prefix (core.py lines 557-561):
`_search(mode='getkeys')`, then `list(...)` and removal of one `'default'`
entry if present.  When `_search` recorded an error it returned Python
`None`, and `list(None)` raises TypeError — modelled by `none`. -/
def chipGetkeysPrefix (tc : PyVal → PyVal → Bool) (cfg : PyVal)
    (pre : List String) : Option (PyVal × List String) :=
  match search tc cfg (pre.map PyVal.s) "value" "getkeys" with
  | some (c2, _, PyVal.l items) =>
      (strList items).map (fun ks => (c2, ks.erase "default"))
  | _ => Option.none

/-- Python `'defvalue' in cfg[k]`: key membership on dicts, substring test on
strings, element membership on lists (the last two only arise on trees that
are not dict-shaped; the schema trees of the claims are dict-shaped). -/
def pvHasDefvalue : PyVal → Bool
  | PyVal.node kvs => hasK kvs "defvalue"
  | PyVal.s v => subMatch "defvalue".data v.data
  | PyVal.l items => items.any (fun x => pvBeq x (PyVal.s "defvalue"))
  | _ => false

mutual

/-- Model of `Chip._allkeys` (core.py lines 662-678): depth-first enumeration
of every key path ending at a dict containing `defvalue`.  Note it does NOT
exclude `default` branches.  Iterating a non-dict value raises in Python; the
claims only apply it to dict-shaped trees, where that branch is unreachable. -/
def allkeys : PyVal → List String → List (List String)
  | PyVal.node kvs, pre => allkeysEntries kvs pre
  | _, _ => []

/-- Entry loop of `_allkeys`. -/
def allkeysEntries : List (String × PyVal) → List String → List (List String)
  | [], _ => []
  | (k, v) :: rest, pre =>
      (if pvHasDefvalue v then [pre ++ [k]] else allkeys v (pre ++ [k]))
        ++ allkeysEntries rest pre

end

/-- Model of `Chip.getkeys()` with no positional args (core.py lines 562-564):
the full `_allkeys` enumeration. -/
def chipGetkeysAll (cfg : PyVal) : List (List String) := allkeys cfg []
/-- Membership of a value in `("null", None, [])`, the `empty` tuple of
`Chip.prune` and `Chip.check` (Python `in` uses `==`, under which only the
empty list equals `[]`). -/
def pvEmpty : PyVal → Bool
  | PyVal.s v => v = "null"
  | PyVal.null => true
  | PyVal.l items => items.isEmpty
  | _ => false

mutual

/-- One pruning pass over a tree: the body of the `while i < maxdepth` loop of
`Chip.prune` (core.py 885-913).  At non-top levels the source executes the
loop body exactly once (the `else: break`), so a recursive call performs one
pass of the whole subtree. -/
def sweep : PyVal → PyVal
  | PyVal.node kvs => PyVal.node (sweepEntries kvs)
  | v => v

/-- The `for k in list(localcfg.keys())` loop of one pruning pass.  Each
iteration reads and modifies only the entry at hand, so the pass is an
entrywise filter-map. -/
def sweepEntries : List (String × PyVal) → List (String × PyVal)
  | [] => []
  | (k, v) :: rest =>
      (match sweepEntry k v with
       | some e => [e]
       | Option.none => []) ++ sweepEntries rest

/-- Treatment of one dict entry by one pruning pass, mirroring the
`if/elif` chain of core.py 888-909: drop `default` sub-trees; strip `help`
then (next pass) `example` from leaves; delete leaves whose defvalue and
value are both empty; drop empty dicts; otherwise recurse one pass.
A non-dict value at a prune level would make the Python `in` checks do
substring tests and the deletes raise; the claims quantify over dict-shaped
trees where this branch never runs, and the model keeps such values. -/
def sweepEntry (k : String) (v : PyVal) : Option (String × PyVal) :=
  if k = "default" then Option.none
  else match v with
    | PyVal.node kvs =>
        if hasK kvs "help" then some (k, PyVal.node (delK kvs "help"))
        else if hasK kvs "example" then some (k, PyVal.node (delK kvs "example"))
        else if hasK kvs "defvalue" then
          (match lookupK kvs "defvalue" with
           | some dv =>
              if pvEmpty dv then
                (match lookupK kvs "value" with
                 | some vv =>
                     if pvEmpty vv then Option.none else some (k, PyVal.node kvs)
                 | Option.none => Option.none)
              else some (k, PyVal.node kvs)
           | Option.none => some (k, PyVal.node kvs))
        else if kvs.isEmpty then Option.none
        else some (k, PyVal.node (sweepEntries kvs))
    | _ => some (k, v)

end

/-- Model of `Chip.prune` (core.py 853-915): the top level runs the pass
`maxdepth = 10` times ("10 should be enough for anyone...").  The deep copy
taken at the top is the identity in this functional model. -/
def pruneModel (cfg : PyVal) : PyVal := sweep^[10] cfg

/-- The `for keylist in cfg2_keys` loop of `Chip.merge` (core.py 1024-1033),
threading the target dict, the overlay dict (reads can materialize `default`
branches in place) and the accumulated `chip.error` flag. -/
def mergeLoop (tc : PyVal → PyVal → Bool) :
    List (List String) → PyVal → PyVal → Bool → Option (PyVal × PyVal × Bool)
  | [], lc, c2, e => some (lc, c2, e)
  | kl :: rest, lc, c2, e =>
      if kl.contains "default" then mergeLoop tc rest lc c2 e
      else
        match chipGet tc c2 kl "type" with
        | some (c2a, e1, PyVal.s tstr) =>
            match chipGet tc c2a kl "value" with
            | some (c2b, e2, val) =>
                if typeIsList tstr then
                  match chipAdd tc lc kl val with
                  | some (lc2, e3, _) => mergeLoop tc rest lc2 c2b (e || e1 || e2 || e3)
                  | Option.none => Option.none
                else
                  match chipSet tc lc kl val with
                  | some (lc2, e3, _) => mergeLoop tc rest lc2 c2b (e || e1 || e2 || e3)
                  | Option.none => Option.none
            | Option.none => Option.none
        | some _ => Option.none
        | Option.none => Option.none

/-- Model of `Chip.merge` (core.py 997-1036): deep-copy `cfg1` (identity
here), enumerate every leaf keypath of `cfg2`, skip paths containing
`default`, and re-apply each leaf with `add` (sequence types) or `set`
(scalar types).  Returns (merged cfg1, cfg2 after reads, error flag). -/
def mergeModel (tc : PyVal → PyVal → Bool) (cfg1 cfg2 : PyVal) :
    Option (PyVal × PyVal × Bool) :=
  mergeLoop tc (chipGetkeysAll cfg2) cfg1 cfg2 false

/-- Decimal string of a natural number (Python `str(i)` for an index). -/
def natRepr (m : Nat) : String := ⟨natDigits m⟩

/-- One step of the flow graph as read through the schema: the values of
`get('flowgraph', step, 'input')` and `get('flowgraph', step, 'nproc')`. -/
structure FlowNode where
  input : List String
  nproc : Nat
deriving Repr

/-- The flow graph: step name to node, in schema insertion order (the order
`getkeys('flowgraph')` yields). -/
abbrev FlowGraph := List (String × FlowNode)

/-- Model of `self.get('flowgraph', step, 'input')`. -/
def fgInput (g : FlowGraph) (step : String) : List String :=
  match g.find? (fun e => e.1 = step) with
  | some e => e.2.input
  | Option.none => []

/-- Model of `self.get('flowgraph', step, 'nproc')`. -/
def fgNproc (g : FlowGraph) (step : String) : Nat :=
  match g.find? (fun e => e.1 = step) with
  | some e => e.2.nproc
  | Option.none => 0

/-- Model of `Chip._allpaths` (core.py 1572-1584).  The source iterates over
`self.get('flowgraph', node, 'input')` but executes `return` inside the loop
body, so only the FIRST declared input of each node is ever followed; the
result is the single path along first inputs (or `[path]` at a source node).
The fuel argument models Python's recursion limit: a cycle exhausts it
(RecursionError, `none`). -/
def allpathsModel (g : FlowGraph) : Nat → String → List String → Option (List (List String))
  | 0, _, _ => Option.none
  | fuel + 1, node, path =>
      match fgInput g node with
      | [] => some [path]
      | next :: _ => allpathsModel g fuel next (path ++ [next])

/-- The depth computed by `Chip.getsteps` for one step: 0, maximised over the
lengths of the paths `_allpaths` returns (core.py 1559-1564). -/
def stepDepth (g : FlowGraph) (step : String) (fuel : Nat) : Option Nat :=
  (allpathsModel g fuel step []).map (fun ps => ps.foldl (fun d p => max d p.length) 0)

/-- Stable insertion into a list sorted ascending by the numeric component:
the new element goes after every element with key less than or equal to its
own, which is exactly the stability contract of Python `sorted`. -/
def sortedIns (x : String × Nat) : List (String × Nat) → List (String × Nat)
  | [] => [x]
  | y :: ys => if y.2 ≤ x.2 then y :: sortedIns x ys else x :: y :: ys

/-- Stable sort by ascending numeric component (model of Python `sorted` with
`key=lambda item: item[1]`). -/
def stableSortByVal (l : List (String × Nat)) : List (String × Nat) :=
  l.foldl (fun acc x => sortedIns x acc) []

/-- Model of `Chip.getsteps` (core.py 1547-1569): compute each step's depth
via `_allpaths`, then return the step names sorted by ascending depth
(Python's `sorted` is stable, so ties stay in declaration order). -/
def getstepsModel (g : FlowGraph) : Option (List String) := do
  let depths ← g.mapM (fun e => (stepDepth g e.1 (g.length + 1)).map (fun d => (e.1, d)))
  pure ((stableSortByVal depths).map Prod.fst)

/-- Model of `Chip.select` (core.py 1587-1597): despite its docstring
("The operation can be an 'or' operation or 'min' operation") the body reads
the full upstream step list, ignores scores entirely (the selection logic is
an unfinished TODO in the source) and returns `(steplist, 0)`. -/
def selectModel (g : FlowGraph) (step : String) : List String × Nat :=
  (fgInput g step, 0)

/-- The identifier `Inf` used at core.py line 1221 is neither imported nor
defined anywhere in core.py, so evaluating it raises NameError: modelled as
an absent binding. -/
def InfBinding : Option Int := Option.none

/-- The call `self.score(step, chip=chip, cfg=cfg)` at core.py line 1224
omits the required positional argument `index` of `Chip.score(step, index)`,
so every evaluation raises TypeError. -/
def scoreCallInMin (_step : String) : Option Int := Option.none

/-- The `for step in steplist` loop of `Chip.min` (core.py 1223-1226).  Note
the source never assigns to `minscore` inside the loop — even with a working
score call the loop would keep comparing against the initial bound. -/
def chipMinLoop : List String → Int → Option String → Option (Option String)
  | [], _, minstep => some minstep
  | step :: rest, minscore, minstep =>
      match scoreCallInMin step with
      | Option.none => Option.none
      | some sc =>
          chipMinLoop rest minscore (if sc < minscore then some step else minstep)

/-- Model of `Chip.min` (core.py 1207-1228): `minscore = Inf` raises
NameError before the loop starts, so every call crashes. -/
def chipMinModel (steplist : List String) : Option (Option String) :=
  match InfBinding with
  | Option.none => Option.none
  | some inf => chipMinLoop steplist inf Option.none

/-- Observable actions of the per-node worker after its wait loop, in program
order (core.py 1633-1778). -/
inductive REvent where
  | clearStepDir
  | makeStepDirs
  | collectInputs
  | copyInputs (src : String)
  | toolSetup
  | versionCheck
  | hashFiles
  | copyRefDir
  | writeRunScript
  | writeManifests
  | resetMetrics
  | checkStep
  | runCommand
  | postProcess
  | writeOutputManifest
deriving Repr, DecidableEq

/-- Results of the external interactions of `Chip.runstep`, so that the
control flow of the worker can be traced without modelling the filesystem or
subprocesses. -/
structure RunOracle where
  remoteAddr : Bool
  toolLoadOk : Bool
  hasVswitch : Bool
  versionOk : Bool
  copyRef : Bool
  checkFails : Bool
  cmdFails : Bool
  postFails : Bool

/-- State of one worker after `runstep` finishes: the shared `active` and
`error` tables, the exit code when the worker called `sys.exit`, and the
events it performed. -/
structure RunOutcome where
  active : String → Nat
  error : String → Nat
  exitCode : Option Nat
  events : List REvent

/-- Pointwise update of a shared table (one `manager.dict` assignment). -/
def updMap (m : String → Nat) (k : String) (v : Nat) : String → Nat :=
  fun k2 => if k2 = k then v else m k2

/-- The upstream `(input_step + str(input_index))` keys a node consults in its
wait and halt loops (core.py 1610-1613 and 1623-1626). -/
def upstreamKeys (g : FlowGraph) (step : String) : List String :=
  (fgInput g step).flatMap
    (fun istep => (List.range (fgNproc g istep)).map (fun i => istep ++ natRepr i))

/-- Model of `Chip.runstep` (core.py 1600-1778) from the point where the
wait-on-inputs loop has exited (the loop only reads the shared `active` table
and sleeps; it writes nothing).  First the halt check sums the upstream error
flags; a non-zero sum marks this node inactive and errored and exits the
process with status 1 before any directory, staging, tool or subprocess
action.  Otherwise the staged pipeline runs, with every externally-determined
branch taken from the oracle and each `sys.exit(1)` site marking
inactive+errored exactly as in the source. -/
def runstepModel (g : FlowGraph) (o : RunOracle) (step index : String)
    (active error : String → Nat) : RunOutcome :=
  let me := step ++ index
  let halt := (upstreamKeys g step).foldl (fun a k => a + error k) 0
  if halt ≠ 0 then
    ⟨updMap active me 0, updMap error me 1, some 1, []⟩
  else
    let ev0 := if o.remoteAddr then [REvent.makeStepDirs]
               else [REvent.clearStepDir, REvent.makeStepDirs]
    let ev1 := ev0 ++
      (if (fgInput g step).isEmpty then [REvent.collectInputs]
       else if ¬ o.remoteAddr then
         (selectModel g step).1.map
           (fun item => REvent.copyInputs (item ++ natRepr (selectModel g step).2))
       else [])
    if ¬ o.toolLoadOk then
      ⟨updMap active me 0, updMap error me 1, some 1, ev1 ++ [REvent.toolSetup]⟩
    else
      let ev2 := ev1 ++ [REvent.toolSetup]
      if o.hasVswitch ∧ ¬ o.versionOk then
        ⟨updMap active me 0, updMap error me 1, some 1, ev2 ++ [REvent.versionCheck]⟩
      else
        let ev3 := ev2 ++ (if o.hasVswitch then [REvent.versionCheck] else [])
          ++ [REvent.hashFiles]
          ++ (if o.copyRef then [REvent.copyRefDir] else [])
          ++ [REvent.writeRunScript, REvent.writeManifests, REvent.resetMetrics,
              REvent.checkStep]
        if o.checkFails then
          ⟨updMap active me 0, updMap error me 1, some 1, ev3⟩
        else if o.cmdFails then
          ⟨updMap active me 0, updMap error me 1, some 1, ev3 ++ [REvent.runCommand]⟩
        else
          let ev4 := ev3 ++ [REvent.runCommand, REvent.postProcess]
          if o.postFails then
            ⟨updMap active me 0, updMap error me 1, some 1, ev4⟩
          else
            ⟨updMap active me 0, error, Option.none, ev4 ++ [REvent.writeOutputManifest]⟩
/-- Pure resolution of a keypath through existing dict entries (no
materialization): the tree nodes `_search` walks when every key exists. -/
def resolvePath : PyVal → List String → Option PyVal
  | v, [] => some v
  | PyVal.node kvs, k :: ks =>
      match lookupK kvs k with
      | some c => resolvePath c ks
      | Option.none => Option.none
  | _, _ :: _ => Option.none

/-- Functional replacement of the dict at the end of a resolving keypath
(what the in-place mutation of `_search` amounts to along an existing path). -/
def updatePath : PyVal → List String → Entries → PyVal
  | _, [], kvs2 => PyVal.node kvs2
  | PyVal.node kvs, k :: ks, kvs2 =>
      PyVal.node (setK kvs k (updatePath ((lookupK kvs k).getD PyVal.null) ks kvs2))
  | v, _ :: _, _ => v

theorem resolvePath_updatePath (ks : List String) (cfg : PyVal) (kvs0 kvs2 : Entries)
    (hres : resolvePath cfg ks = some (PyVal.node kvs0)) :
    resolvePath (updatePath cfg ks kvs2) ks = some (PyVal.node kvs2) := by
  induction ks generalizing cfg with
  | nil => simp [resolvePath, updatePath]
  | cons k0 kt ih =>
      match cfg with
      | PyVal.node kvs =>
          simp only [resolvePath] at hres
          cases hlk : lookupK kvs k0 with
          | none => rw [hlk] at hres; exact Option.noConfusion hres
          | some child =>
              rw [hlk] at hres
              simp only [updatePath, hlk, Option.getD_some, resolvePath,
                lookupK_setK_self]
              exact ih child hres
      | PyVal.s v => simp [resolvePath] at hres
      | PyVal.l v => simp [resolvePath] at hres
      | PyVal.i v => simp [resolvePath] at hres
      | PyVal.f v => simp [resolvePath] at hres
      | PyVal.b v => simp [resolvePath] at hres
      | PyVal.null => simp [resolvePath] at hres

/-- One descent step of `_search` through an existing key: the recursion on
the sub-dict, with the (unchanged-by-read, or mutated-by-write) sub-result
written back in place. -/
theorem search_descend_step (tc : PyVal → PyVal → Bool) (field mode : String)
    (kvs0 : Entries) (k0 : String) (b : PyVal) (rest : List PyVal) (child : PyVal)
    (hml : ¬ ((mode = "set" ∨ mode = "add") ∧ (b :: rest).length = 1))
    (hlk : lookupK kvs0 k0 = some child) :
    search tc (PyVal.node kvs0) (PyVal.s k0 :: b :: rest) field mode =
      (search tc child (b :: rest) field mode).map
        (fun r => (PyVal.node (setK kvs0 k0 r.1), r.2.1, r.2.2)) := by
  have hk0 : hasK kvs0 k0 = true := by simp [hasK, hlk]
  rw [search.eq_def]
  dsimp only
  rw [if_neg hml, if_pos hk0]
  dsimp only
  rw [hlk]

/-- One descent step of `_search` through a missing key whose dict holds a
`default` prototype (core.py 790-794): the prototype is deep-copied in as the
new entry before the recursion descends into it. -/
theorem search_descend_default (tc : PyVal → PyVal → Bool) (field mode : String)
    (kvs0 : Entries) (k0 : String) (b : PyVal) (rest : List PyVal) (d : PyVal)
    (hml : ¬ ((mode = "set" ∨ mode = "add") ∧ (b :: rest).length = 1))
    (hmiss : hasK kvs0 k0 = false)
    (hdef : lookupK kvs0 "default" = some d) :
    search tc (PyVal.node kvs0) (PyVal.s k0 :: b :: rest) field mode =
      (search tc d (b :: rest) field mode).map
        (fun r => (PyVal.node (setK (setK kvs0 k0 d) k0 r.1), r.2.1, r.2.2)) := by
  have hk0 : ¬ (hasK kvs0 k0 = true) := by simp [hmiss]
  rw [search.eq_def]
  dsimp only
  rw [if_neg hml, if_neg hk0, hdef]
  dsimp only [Option.map]
  rw [lookupK_setK_self]

/-- One descent step of `_search` through a missing key with no `default`
prototype: the Python `cfg['default']` lookup raises KeyError (core.py 792),
aborting the whole call. -/
theorem search_descend_keyerror (tc : PyVal → PyVal → Bool) (field mode : String)
    (kvs0 : Entries) (k0 : String) (b : PyVal) (rest : List PyVal)
    (hml : ¬ ((mode = "set" ∨ mode = "add") ∧ (b :: rest).length = 1))
    (hmiss : hasK kvs0 k0 = false)
    (hdef : lookupK kvs0 "default" = Option.none) :
    search tc (PyVal.node kvs0) (PyVal.s k0 :: b :: rest) field mode = Option.none := by
  have hk0 : ¬ (hasK kvs0 k0 = true) := by simp [hmiss]
  rw [search.eq_def]
  dsimp only
  rw [if_neg hml, if_neg hk0, hdef]
  rfl

/-- A `get`/`getkeys` walk whose prefix resolves reaches the leaf branch of
`_search` with the tree unchanged: along an existing path the descent
materializes nothing and writes back the sub-dict it read. -/
theorem search_resolved_leaf (tc : PyVal → PyVal → Bool) (field mode : String)
    (hmode : ¬ (mode = "set" ∨ mode = "add"))
    (ks : List String) (cfg : PyVal) (kvs : Entries) (k : String)
    (hres : resolvePath cfg ks = some (PyVal.node kvs)) :
    search tc cfg ((ks ++ [k]).map PyVal.s) field mode =
      (leafGetKeys kvs k field mode).map (fun er => (cfg, er.1, er.2)) := by
  induction ks generalizing cfg with
  | nil =>
      simp only [resolvePath, Option.some.injEq] at hres
      subst hres
      rfl
  | cons k0 kt ih =>
      match cfg with
      | PyVal.node kvs0 =>
          simp only [resolvePath] at hres
          cases hlk : lookupK kvs0 k0 with
          | none => rw [hlk] at hres; exact Option.noConfusion hres
          | some child =>
              rw [hlk] at hres
              have hrec := ih child hres
              obtain ⟨b, rest, hargs⟩ : ∃ b rest,
                  (kt ++ [k]).map PyVal.s = b :: rest := by
                cases kt <;> exact ⟨_, _, rfl⟩
              show search tc (PyVal.node kvs0)
                  (PyVal.s k0 :: (kt ++ [k]).map PyVal.s) field mode = _
              rw [hargs,
                search_descend_step tc field mode kvs0 k0 b rest child
                  (fun hc => hmode hc.1) hlk,
                ← hargs, hrec]
              cases hleaf : leafGetKeys kvs k field mode with
              | none => rfl
              | some er =>
                  dsimp only [Option.map]
                  rw [setK_lookup_self kvs0 k0 child hlk]
      | PyVal.s v => simp [resolvePath] at hres
      | PyVal.l v => simp [resolvePath] at hres
      | PyVal.i v => simp [resolvePath] at hres
      | PyVal.f v => simp [resolvePath] at hres
      | PyVal.b v => simp [resolvePath] at hres
      | PyVal.null => simp [resolvePath] at hres

/-- A `set`/`add` walk whose prefix resolves reaches the leaf branch of
`_search`, and the updated tree is the functional write-back of the updated
parent dict along the path. -/
theorem search_resolved_setadd (tc : PyVal → PyVal → Bool) (field mode : String)
    (hmode : mode = "set" ∨ mode = "add")
    (ks : List String) (cfg : PyVal) (kvs : Entries) (k : String) (val : PyVal)
    (hres : resolvePath cfg ks = some (PyVal.node kvs)) :
    search tc cfg (ks.map PyVal.s ++ [PyVal.s k, val]) field mode =
      (leafSetAdd tc kvs k val field mode).map
        (fun r => (updatePath cfg ks r.1, r.2.1, r.2.2)) := by
  induction ks generalizing cfg with
  | nil =>
      simp only [resolvePath, Option.some.injEq] at hres
      subst hres
      show search tc (PyVal.node kvs) (PyVal.s k :: val :: []) field mode = _
      have hcond : (mode = "set" ∨ mode = "add") ∧
          (val :: ([] : List PyVal)).length = 1 := ⟨hmode, rfl⟩
      rw [search.eq_def]
      dsimp only
      rw [if_pos hcond]
      cases hleaf : leafSetAdd tc kvs k val field mode with
      | none => rfl
      | some r => rfl
  | cons k0 kt ih =>
      match cfg with
      | PyVal.node kvs0 =>
          simp only [resolvePath] at hres
          cases hlk : lookupK kvs0 k0 with
          | none => rw [hlk] at hres; exact Option.noConfusion hres
          | some child =>
              rw [hlk] at hres
              have hrec := ih child hres
              obtain ⟨b, rest, hargs⟩ : ∃ b rest,
                  kt.map PyVal.s ++ [PyVal.s k, val] = b :: rest := by
                cases kt <;> exact ⟨_, _, rfl⟩
              have hlen : (b :: rest).length ≠ 1 := by
                rw [← hargs]
                cases kt <;> simp [List.length_append]
              show search tc (PyVal.node kvs0)
                  (PyVal.s k0 :: (kt.map PyVal.s ++ [PyVal.s k, val])) field mode = _
              rw [hargs,
                search_descend_step tc field mode kvs0 k0 b rest child
                  (fun hc => hlen hc.2) hlk,
                ← hargs, hrec]
              cases hleaf : leafSetAdd tc kvs k val field mode with
              | none => rfl
              | some r =>
                  dsimp only [Option.map]
                  have hup : updatePath (PyVal.node kvs0) (k0 :: kt) r.1 =
                      PyVal.node (setK kvs0 k0 (updatePath child kt r.1)) := by
                    rw [updatePath, hlk]
                    rfl
                  rw [hup]
      | PyVal.s v => simp [resolvePath] at hres
      | PyVal.l v => simp [resolvePath] at hres
      | PyVal.i v => simp [resolvePath] at hres
      | PyVal.f v => simp [resolvePath] at hres
      | PyVal.b v => simp [resolvePath] at hres
      | PyVal.null => simp [resolvePath] at hres
/-- A trivial `schema_typecheck` instantiation for concrete witnesses (the
claims hold for every `tc`; schema.py is not part of this source tree). -/
def tcTrue : PyVal → PyVal → Bool := fun _ _ => true

/-- The diamond flow graph of the spec's testable property: steps declared in
order A, B, C, D; B inputs A, C inputs B, D inputs A and C; one process
per step. -/
def diamondFlow : FlowGraph :=
  [("A", ⟨[], 1⟩), ("B", ⟨["A"], 1⟩), ("C", ⟨["B"], 1⟩), ("D", ⟨["A", "C"], 1⟩)]

/-- C2: the claim says `getsteps` orders the diamond by depth-from-source so
that A precedes B and C precedes D.  The code computes each step's depth with
`_allpaths`, which returns inside its input loop (core.py 1583) and therefore
follows only the FIRST declared input: D's depth comes out as 1 (the path
through A) instead of 3 (through C, B, A), so the result is
["A", "B", "D", "C"] — D is listed before C, violating the claim.  This
theorem evaluates the embedded `getsteps` at the diamond: D sits at index 2
and C at index 3. -/
theorem c2_getsteps_diamond_misorders :
    getstepsModel diamondFlow = some ["A", "B", "D", "C"] ∧
    ["A", "B", "D", "C"][2]? = some "D" ∧ ["A", "B", "D", "C"][3]? = some "C" :=
  ⟨rfl, rfl, rfl⟩

/-- C3: the claim says multi-candidate input selection picks the
minimum-score candidate and `min(steplist)` returns the smallest-score step.
In the code, `select` (core.py 1587-1597) ignores scores entirely — the
selection logic is a TODO — and returns the whole upstream list with index 0;
and `min` (core.py 1207-1228) crashes on every call: `minscore = Inf` uses
the unbound name `Inf` (NameError) and `self.score(step, ...)` omits the
required `index` argument (TypeError); moreover the loop never updates
`minscore`.  Evaluated at the diamond's step D (two candidates A and C). -/
theorem c3_select_and_min_broken :
    selectModel diamondFlow "D" = (["A", "C"], 0) ∧
    chipMinModel ["A", "C"] = Option.none :=
  ⟨rfl, rfl⟩

theorem foldl_add_init (f : String → Nat) (l : List String) (a : Nat) :
    a ≤ l.foldl (fun acc x => acc + f x) a := by
  induction l generalizing a with
  | nil => exact Nat.le_refl a
  | cons hd tl ih => exact Nat.le_trans (Nat.le_add_right a (f hd)) (ih (a + f hd))

theorem foldl_add_mem (f : String → Nat) (l : List String) (k : String)
    (hk : k ∈ l) (a : Nat) :
    f k ≤ l.foldl (fun acc x => acc + f x) a := by
  induction l generalizing a with
  | nil => cases hk
  | cons hd tl ih =>
      cases hk with
      | head =>
          have h1 := foldl_add_init f tl (a + f k)
          simpa using Nat.le_trans (Nat.le_add_left (f k) a) h1
      | tail _ hmem => exact ih hmem (a + f hd)

/-- C5: once the wait-on-inputs loop has exited, a set error flag on any
declared upstream `(step, index)` makes the worker mark itself inactive and
errored in the shared tables and exit its process with status 1, performing
no staging, tool setup, command execution or any other action (empty event
trace) — for every flow graph, oracle and shared-state contents. -/
theorem c5_halt_on_upstream_error (g : FlowGraph) (o : RunOracle)
    (step index : String) (active error : String → Nat) (k : String)
    (hk : k ∈ upstreamKeys g step) (hke : error k ≠ 0) :
    runstepModel g o step index active error =
      ⟨updMap active (step ++ index) 0, updMap error (step ++ index) 1,
        some 1, []⟩ := by
  have hle := foldl_add_mem error (upstreamKeys g step) k hk 0
  have hsum : (upstreamKeys g step).foldl (fun a k2 => a + error k2) 0 ≠ 0 := by
    omega
  simp only [runstepModel]
  rw [if_pos hsum]

/-- Witness for C5 at the diamond: B waits on A0, whose error flag is 1. -/
def errA0 : String → Nat := fun k => if k = "A0" then 1 else 0

/-- All-zero shared table for witnesses. -/
def actZero : String → Nat := fun _ => 0

/-- A benign oracle for witnesses (local run, everything succeeds). -/
def oracleOk : RunOracle := ⟨false, true, false, true, false, false, false, false⟩

theorem c5_halt_witness :
    "A0" ∈ upstreamKeys diamondFlow "B" ∧ errA0 "A0" ≠ 0 ∧
    runstepModel diamondFlow oracleOk "B" "0" actZero errA0 =
      ⟨updMap actZero ("B" ++ "0") 0, updMap errA0 ("B" ++ "0") 1, some 1, []⟩ :=
  ⟨by decide, by decide,
    c5_halt_on_upstream_error diamondFlow oracleOk "B" "0" actZero errA0 "A0"
      (by decide) (by decide)⟩

/-- C10: a `get` on a multi-segment keypath whose first key is absent while
the dict holds a `default` prototype deep-copies the prototype in as a new
entry before descending (core.py 790-794): whenever the call returns, the
returned tree contains the freshly materialized branch and differs from the
input tree.  (`set`/`add` share the same descent, lines 789-794.) -/
theorem c10_get_materializes_default (tc : PyVal → PyVal → Bool)
    (kvs : Entries) (k0 : String) (b : PyVal) (rest : List PyVal)
    (field : String) (d : PyVal)
    (hmiss : hasK kvs k0 = false) (hdef : lookupK kvs "default" = some d)
    (c2 : PyVal) (e : Bool) (r : PyVal)
    (hrun : search tc (PyVal.node kvs) (PyVal.s k0 :: b :: rest) field "get"
              = some (c2, e, r)) :
    (∃ sub, c2 = PyVal.node (setK (setK kvs k0 d) k0 sub)) ∧
      c2 ≠ PyVal.node kvs := by
  have hml : ¬ (("get" = "set" ∨ "get" = "add") ∧ (b :: rest).length = 1) := by
    intro hc
    rcases hc.1 with hm | hm <;> exact absurd hm (by decide)
  rw [search_descend_default tc field "get" kvs k0 b rest d hml hmiss hdef] at hrun
  cases hs : search tc d (b :: rest) field "get" with
  | none => rw [hs] at hrun; exact Option.noConfusion hrun
  | some r2 =>
      rw [hs] at hrun
      dsimp only [Option.map] at hrun
      have hc2 : c2 = PyVal.node (setK (setK kvs k0 d) k0 r2.1) := by
        have := congrArg (fun x => x.map (fun y => y.1)) hrun
        simpa using this.symm
      refine ⟨⟨r2.1, hc2⟩, ?_⟩
      intro hcontra
      rw [hcontra] at hc2
      have hkvs : kvs = setK (setK kvs k0 d) k0 r2.1 := PyVal.node.inj hc2
      have htrue := hasK_setK_self (setK kvs k0 d) k0 r2.1
      rw [← hkvs] at htrue
      rw [hmiss] at htrue
      exact Bool.noConfusion htrue

/-- The prototype parameter used by concrete witnesses. -/
def protoParam : PyVal := PyVal.node [("type", PyVal.s "str"), ("defvalue", PyVal.s "d")]

/-- A dict with only a `default` prototype child (like `flowgraph` before any
step is written). -/
def cfgProto : Entries := [("default", PyVal.node [("tool", protoParam)])]

theorem c10_witness :
    (∃ sub, PyVal.node [("default", PyVal.node [("tool", protoParam)]),
        ("syn", PyVal.node [("tool", protoParam)])] =
      PyVal.node (setK (setK cfgProto "syn" (PyVal.node [("tool", protoParam)]))
        "syn" sub)) ∧
    PyVal.node [("default", PyVal.node [("tool", protoParam)]),
        ("syn", PyVal.node [("tool", protoParam)])] ≠ PyVal.node cfgProto :=
  c10_get_materializes_default tcTrue cfgProto "syn" (PyVal.s "tool") [] "value"
    (PyVal.node [("tool", protoParam)]) rfl rfl
    (PyVal.node [("default", PyVal.node [("tool", protoParam)]),
        ("syn", PyVal.node [("tool", protoParam)])]) false (PyVal.s "d") rfl

/-- C4 counterexample: the claim says every unresolvable keypath (with no
default prototype on the way) makes `get` record an error and RETURN.  On a
multi-segment keypath whose missing key is intermediate, the descent instead
evaluates `cfg['default']` on a dict with no `default` key and the KeyError
escapes (core.py 792), aborting the call: the model returns the
crash marker, not a recorded-error result. -/
theorem c4_counterexample :
    search tcTrue (PyVal.node [("a", PyVal.node [("b", protoParam)])])
      [PyVal.s "zzz", PyVal.s "b"] "value" "get" = Option.none := rfl

/-- C4 amended: `get` records the error (flag set, Python `None` returned,
no exception) when the MISSING key is final — single-segment keypaths and
multi-segment keypaths whose prefix resolves — but a missing intermediate
key with no `default` prototype raises an uncaught KeyError instead. -/
theorem c4_get_error_paths (tc : PyVal → PyVal → Bool) (kvs : Entries)
    (k : String) (field : String) :
    (hasK kvs k = false →
      search tc (PyVal.node kvs) [PyVal.s k] field "get"
        = some (PyVal.node kvs, true, PyVal.null)) ∧
    (∀ pre kvs2, resolvePath (PyVal.node kvs) pre = some (PyVal.node kvs2) →
      hasK kvs2 k = false →
      search tc (PyVal.node kvs) ((pre ++ [k]).map PyVal.s) field "get"
        = some (PyVal.node kvs, true, PyVal.null)) ∧
    (∀ b rest, hasK kvs k = false → lookupK kvs "default" = Option.none →
      search tc (PyVal.node kvs) (PyVal.s k :: b :: rest) field "get"
        = Option.none) := by
  have hget : ¬ ((("get" : String) = "set" ∨ ("get" : String) = "add")) := by
    intro hc
    rcases hc with hm | hm <;> exact absurd hm (by decide)
  refine ⟨?_, ?_, ?_⟩
  · intro hmiss
    have hleaf : leafGetKeys kvs k field "get" = some (true, PyVal.null) := by
      rw [leafGetKeys.eq_def]
      rw [if_pos (by simp [hmiss])]
    rw [search.eq_def]
    dsimp only
    rw [hleaf]
    rfl
  · intro pre kvs2 hres hmiss
    rw [search_resolved_leaf tc field "get" hget pre (PyVal.node kvs) kvs2 k hres]
    have hleaf : leafGetKeys kvs2 k field "get" = some (true, PyVal.null) := by
      rw [leafGetKeys.eq_def]
      rw [if_pos (by simp [hmiss])]
    rw [hleaf]
    rfl
  · intro b rest hmiss hdef
    exact search_descend_keyerror tc field "get" kvs k b rest
      (fun hc => hget hc.1) hmiss hdef

theorem c4_witness :
    search tcTrue (PyVal.node [("a", PyVal.node [("b", protoParam)])])
      [PyVal.s "zzz"] "value" "get"
      = some (PyVal.node [("a", PyVal.node [("b", protoParam)])], true, PyVal.null) ∧
    search tcTrue (PyVal.node [("a", PyVal.node [("b", protoParam)])])
      ((["a"] ++ ["zzz"]).map PyVal.s) "value" "get"
      = some (PyVal.node [("a", PyVal.node [("b", protoParam)])], true, PyVal.null) :=
  ⟨(c4_get_error_paths tcTrue [("a", PyVal.node [("b", protoParam)])] "zzz" "value").1
      rfl,
   (c4_get_error_paths tcTrue [("a", PyVal.node [("b", protoParam)])] "zzz" "value").2.1
      ["a"] [("b", protoParam)] rfl rfl⟩
theorem leafGetKeys_value (kvs : Entries) (k : String) (pkvs : Entries)
    (hlk : lookupK kvs k = some (PyVal.node pkvs)) :
    leafGetKeys kvs k "value" "get" = leafValueRead pkvs := by
  have hk : hasK kvs k = true := by simp [hasK, hlk]
  rw [leafGetKeys.eq_def]
  rw [if_neg (by simp [hk]), if_neg (by decide), hlk]
  dsimp only
  rw [if_neg (by simp), if_pos rfl]

/-- Materializing the stored value from the default (core.py 715-716) does
not change what a subsequent value read observes. -/
theorem leafValueRead_materialize (pkvs : Entries) (dv : PyVal)
    (hdv : lookupK pkvs "defvalue" = some dv) (hnov : hasK pkvs "value" = false) :
    leafValueRead (setK pkvs "value" dv) = leafValueRead pkvs := by
  rw [leafValueRead.eq_def, leafValueRead.eq_def]
  have h1 : hasK (setK pkvs "value" dv) "value" = true := hasK_setK_self pkvs "value" dv
  rw [if_pos h1, if_neg (by simp [hnov]), lookupK_setK_self, hdv]
  have ht : lookupK (setK pkvs "value" dv) "type" = lookupK pkvs "type" := by
    exact lookupK_setK_ne pkvs "value" "type" dv (by decide)
  rw [ht]
theorem withValue_hasK (pkvs pkvs2 : Entries) (h : withValue pkvs = some pkvs2) :
    hasK pkvs2 "value" = true := by
  unfold withValue at h
  by_cases hv : hasK pkvs "value"
  · rw [if_pos hv] at h
    cases h
    exact hv
  · rw [if_neg hv] at h
    cases hdv : lookupK pkvs "defvalue" with
    | none => rw [hdv] at h; exact Option.noConfusion h
    | some dv =>
        rw [hdv] at h
        cases h
        exact hasK_setK_self pkvs "value" dv

theorem withValue_type (pkvs pkvs2 : Entries) (h : withValue pkvs = some pkvs2) :
    lookupK pkvs2 "type" = lookupK pkvs "type" := by
  unfold withValue at h
  by_cases hv : hasK pkvs "value"
  · rw [if_pos hv] at h
    cases h
    rfl
  · rw [if_neg hv] at h
    cases hdv : lookupK pkvs "defvalue" with
    | none => rw [hdv] at h; exact Option.noConfusion h
    | some dv =>
        rw [hdv] at h
        cases h
        exact lookupK_setK_ne pkvs "value" "type" dv (by decide)

theorem withValue_read (pkvs pkvs2 : Entries) (h : withValue pkvs = some pkvs2) :
    leafValueRead pkvs2 = leafValueRead pkvs := by
  unfold withValue at h
  by_cases hv : hasK pkvs "value"
  · rw [if_pos hv] at h
    cases h
    rfl
  · rw [if_neg hv] at h
    cases hdv : lookupK pkvs "defvalue" with
    | none => rw [hdv] at h; exact Option.noConfusion h
    | some dv =>
        rw [hdv] at h
        cases h
        exact leafValueRead_materialize pkvs dv hdv (by simp [hasK] at hv ⊢; simp [hv])

theorem withValue_exists (pkvs : Entries) (dv : PyVal)
    (hdv : lookupK pkvs "defvalue" = some dv) :
    ∃ pkvs2, withValue pkvs = some pkvs2 := by
  unfold withValue
  by_cases hv : hasK pkvs "value"
  · rw [if_pos hv]
    exact ⟨pkvs, rfl⟩
  · rw [if_neg hv, hdv]
    exact ⟨setK pkvs "value" dv, rfl⟩

/-- A `set` with a list value on a scalar-typed parameter takes the
"Illegal to assign a list to a scalar" branch (core.py 732-734): no field is
written, the error flag is set, and the (possibly just materialized) stored
value is returned. -/
theorem leafSetAdd_set_list_on_scalar (tc : PyVal → PyVal → Bool)
    (kvs : Entries) (k : String) (pkvs pkvs2 : Entries) (t : String) (val : PyVal)
    (hlk : lookupK kvs k = some (PyVal.node pkvs))
    (htype : lookupK pkvs "type" = some (PyVal.s t))
    (hscalar : typeIsList t = false)
    (hmat : withValue pkvs = some pkvs2)
    (hval : isListV val = true) :
    leafSetAdd tc kvs k val "value" "set" =
      (lookupK pkvs2 "value").map
        (fun res => (setK kvs k (PyVal.node pkvs2), true, res)) := by
  have hk : hasK kvs k = true := by simp [hasK, hlk]
  rw [leafSetAdd.eq_def]
  rw [if_neg (by simp [hk]), if_pos hk]
  dsimp only
  rw [hlk]
  dsimp only
  rw [htype]
  dsimp only
  rw [hmat]
  dsimp only
  rw [if_pos rfl]
  rw [if_neg (by simp [hscalar, hval]), if_neg (by simp [hscalar]),
    if_neg (by simp [hscalar])]
  dsimp only
  cases hres : lookupK pkvs2 "value" with
  | none => rfl
  | some res => simp

/-- An `add` on a scalar-typed parameter takes the "Illegal to use add()
method with scalar" branch (core.py 740-742), for every value: no write,
error flag set. -/
theorem leafSetAdd_add_on_scalar (tc : PyVal → PyVal → Bool)
    (kvs : Entries) (k : String) (pkvs pkvs2 : Entries) (t : String) (val : PyVal)
    (hlk : lookupK kvs k = some (PyVal.node pkvs))
    (htype : lookupK pkvs "type" = some (PyVal.s t))
    (hscalar : typeIsList t = false)
    (hmat : withValue pkvs = some pkvs2) :
    leafSetAdd tc kvs k val "value" "add" =
      (lookupK pkvs2 "value").map
        (fun res => (setK kvs k (PyVal.node pkvs2), true, res)) := by
  have hk : hasK kvs k = true := by simp [hasK, hlk]
  rw [leafSetAdd.eq_def]
  rw [if_neg (by simp [hk]), if_pos hk]
  dsimp only
  rw [hlk]
  dsimp only
  rw [htype]
  dsimp only
  rw [hmat]
  dsimp only
  rw [if_neg (by decide)]
  rw [if_neg (by simp [hscalar]), if_neg (by simp [hscalar])]
  dsimp only
  cases hres : lookupK pkvs2 "value" with
  | none => rfl
  | some res => simp
theorem map_proj_get (x : Option (Bool × PyVal)) (c : PyVal) :
    (x.map (fun er => (c, er.1, er.2))).map
        (fun r : PyVal × Bool × PyVal => (r.2.1, r.2.2)) = x := by
  cases x with
  | none => rfl
  | some er => rfl

/-- C6: on a scalar-typed parameter leaf (existing keypath, scalar `type`
field, `defvalue` present as every schema leaf has), `set` with a list value
and `add` with ANY value both return with the error flag set — no exception,
the crash marker is never produced — and a subsequent `get` of the parameter
observes exactly the same (error flag, value) pair as before the failed
write.  Holds for every typecheck oracle `tc` since `schema_typecheck` only
contributes to the error flag. -/
theorem c6_scalar_write_errors (tc : PyVal → PyVal → Bool) (ks : List String)
    (k : String) (cfg : PyVal) (kvs pkvs : Entries) (t : String) (dv : PyVal)
    (hres : resolvePath cfg ks = some (PyVal.node kvs))
    (hlk : lookupK kvs k = some (PyVal.node pkvs))
    (htype : lookupK pkvs "type" = some (PyVal.s t))
    (hscalar : typeIsList t = false)
    (hdv : lookupK pkvs "defvalue" = some dv) :
    (∀ vl : List PyVal, ∃ cfg2 res,
      search tc cfg (ks.map PyVal.s ++ [PyVal.s k, PyVal.l vl]) "value" "set"
        = some (cfg2, true, res) ∧
      (search tc cfg2 ((ks ++ [k]).map PyVal.s) "value" "get").map
          (fun r => (r.2.1, r.2.2)) =
      (search tc cfg ((ks ++ [k]).map PyVal.s) "value" "get").map
          (fun r => (r.2.1, r.2.2))) ∧
    (∀ val : PyVal, ∃ cfg2 res,
      search tc cfg (ks.map PyVal.s ++ [PyVal.s k, val]) "value" "add"
        = some (cfg2, true, res) ∧
      (search tc cfg2 ((ks ++ [k]).map PyVal.s) "value" "get").map
          (fun r => (r.2.1, r.2.2)) =
      (search tc cfg ((ks ++ [k]).map PyVal.s) "value" "get").map
          (fun r => (r.2.1, r.2.2))) := by
  obtain ⟨pkvs2, hmat⟩ := withValue_exists pkvs dv hdv
  obtain ⟨sv, hsv⟩ : ∃ sv, lookupK pkvs2 "value" = some sv := by
    have := withValue_hasK pkvs pkvs2 hmat
    cases hv : lookupK pkvs2 "value" with
    | none => rw [hasK, hv] at this; exact Bool.noConfusion this
    | some sv => exact ⟨sv, rfl⟩
  have hgetmode : ¬ (("get" : String) = "set" ∨ ("get" : String) = "add") := by
    intro hc
    rcases hc with hm | hm <;> exact absurd hm (by decide)
  -- the read made after the failed write equals the read made before it
  have hsame : ∀ mode2, (mode2 = "set" ∨ mode2 = "add") →
      ∀ r0, leafSetAdd tc kvs k r0 "value" mode2 =
        (lookupK pkvs2 "value").map
          (fun res => (setK kvs k (PyVal.node pkvs2), true, res)) →
      ∃ cfg2 res,
        search tc cfg (ks.map PyVal.s ++ [PyVal.s k, r0]) "value" mode2
          = some (cfg2, true, res) ∧
        (search tc cfg2 ((ks ++ [k]).map PyVal.s) "value" "get").map
            (fun r => (r.2.1, r.2.2)) =
        (search tc cfg ((ks ++ [k]).map PyVal.s) "value" "get").map
            (fun r => (r.2.1, r.2.2)) := by
    intro mode2 hm2 r0 hleaf
    refine ⟨updatePath cfg ks (setK kvs k (PyVal.node pkvs2)), sv, ?_, ?_⟩
    · rw [search_resolved_setadd tc "value" mode2 hm2 ks cfg kvs k r0 hres,
        hleaf, hsv]
      rfl
    · have hres2 : resolvePath (updatePath cfg ks (setK kvs k (PyVal.node pkvs2)))
          ks = some (PyVal.node (setK kvs k (PyVal.node pkvs2))) :=
        resolvePath_updatePath ks cfg kvs (setK kvs k (PyVal.node pkvs2)) hres
      rw [search_resolved_leaf tc "value" "get" hgetmode ks _ _ k hres2,
        search_resolved_leaf tc "value" "get" hgetmode ks cfg kvs k hres,
        map_proj_get, map_proj_get,
        leafGetKeys_value _ k pkvs2 (lookupK_setK_self kvs k (PyVal.node pkvs2)),
        leafGetKeys_value kvs k pkvs hlk,
        withValue_read pkvs pkvs2 hmat]
  constructor
  · intro vl
    exact hsame "set" (Or.inl rfl) (PyVal.l vl)
      (leafSetAdd_set_list_on_scalar tc kvs k pkvs pkvs2 t (PyVal.l vl)
        hlk htype hscalar hmat rfl)
  · intro val
    exact hsame "add" (Or.inr rfl) val
      (leafSetAdd_add_on_scalar tc kvs k pkvs pkvs2 t val hlk htype hscalar hmat)

/-- The int-typed parameter used in concrete witnesses. -/
def intParam : Entries := [("type", PyVal.s "int"), ("defvalue", PyVal.null)]

theorem c6_witness :
    (∃ cfg2 res,
      search tcTrue (PyVal.node [("width", PyVal.node intParam)])
        (([] : List String).map PyVal.s ++ [PyVal.s "width", PyVal.l [PyVal.i 1]])
        "value" "set" = some (cfg2, true, res) ∧
      (search tcTrue cfg2 ((([] : List String) ++ ["width"]).map PyVal.s)
          "value" "get").map (fun r => (r.2.1, r.2.2)) =
      (search tcTrue (PyVal.node [("width", PyVal.node intParam)])
          ((([] : List String) ++ ["width"]).map PyVal.s)
          "value" "get").map (fun r => (r.2.1, r.2.2))) ∧
    (∃ cfg2 res,
      search tcTrue (PyVal.node [("width", PyVal.node intParam)])
        (([] : List String).map PyVal.s ++ [PyVal.s "width", PyVal.i 7])
        "value" "add" = some (cfg2, true, res) ∧
      (search tcTrue cfg2 ((([] : List String) ++ ["width"]).map PyVal.s)
          "value" "get").map (fun r => (r.2.1, r.2.2)) =
      (search tcTrue (PyVal.node [("width", PyVal.node intParam)])
          ((([] : List String) ++ ["width"]).map PyVal.s)
          "value" "get").map (fun r => (r.2.1, r.2.2))) :=
  ⟨(c6_scalar_write_errors tcTrue [] "width"
      (PyVal.node [("width", PyVal.node intParam)]) [("width", PyVal.node intParam)]
      intParam "int" PyVal.null rfl rfl rfl rfl rfl).1 [PyVal.i 1],
   (c6_scalar_write_errors tcTrue [] "width"
      (PyVal.node [("width", PyVal.node intParam)]) [("width", PyVal.node intParam)]
      intParam "int" PyVal.null rfl rfl rfl rfl rfl).2 (PyVal.i 7)⟩
/-- A successful `set` of a non-list value on a scalar-typed parameter stores
`str(val)` (core.py 726-727) and returns it; the error flag carries only the
field-check and `schema_typecheck` contributions. -/
theorem leafSetAdd_set_scalar_ok (tc : PyVal → PyVal → Bool)
    (kvs : Entries) (k : String) (pkvs pkvs2 : Entries) (t : String) (val : PyVal)
    (hlk : lookupK kvs k = some (PyVal.node pkvs))
    (htype : lookupK pkvs "type" = some (PyVal.s t))
    (hscalar : typeIsList t = false)
    (hmat : withValue pkvs = some pkvs2)
    (hval : isListV val = false) :
    leafSetAdd tc kvs k val "value" "set" =
      some (setK kvs k (PyVal.node (setK pkvs2 "value" (PyVal.s (pyStr val)))),
            (decide (¬ hasK pkvs2 "value" = true ∧ ("value" : String) ≠ "value") ||
             decide (¬ tc (PyVal.node pkvs2) val = true) || false),
            PyVal.s (pyStr val)) := by
  have hk : hasK kvs k = true := by simp [hasK, hlk]
  rw [leafSetAdd.eq_def]
  rw [if_neg (by simp [hk]), if_pos hk]
  dsimp only
  rw [hlk]
  dsimp only
  rw [htype]
  dsimp only
  rw [hmat]
  dsimp only
  rw [if_pos rfl, if_pos (by simp [hscalar, hval])]
  dsimp only
  rw [lookupK_setK_self]

/-- A successful `set` of a list value on a list-typed parameter stores the
list as given — elements are NOT passed through `str` (core.py 730-731). -/
theorem leafSetAdd_set_list_ok (tc : PyVal → PyVal → Bool)
    (kvs : Entries) (k : String) (pkvs pkvs2 : Entries) (t : String) (val : PyVal)
    (hlk : lookupK kvs k = some (PyVal.node pkvs))
    (htype : lookupK pkvs "type" = some (PyVal.s t))
    (hlist : typeIsList t = true)
    (hmat : withValue pkvs = some pkvs2)
    (hval : isListV val = true) :
    leafSetAdd tc kvs k val "value" "set" =
      some (setK kvs k (PyVal.node (setK pkvs2 "value" val)),
            (decide (¬ hasK pkvs2 "value" = true ∧ ("value" : String) ≠ "value") ||
             decide (¬ tc (PyVal.node pkvs2) val = true) || false),
            val) := by
  have hk : hasK kvs k = true := by simp [hasK, hlk]
  rw [leafSetAdd.eq_def]
  rw [if_neg (by simp [hk]), if_pos hk]
  dsimp only
  rw [hlk]
  dsimp only
  rw [htype]
  dsimp only
  rw [hmat]
  dsimp only
  rw [if_pos rfl, if_neg (by simp [hval]), if_neg (by simp [hval]),
    if_pos (by simp [hlist, hval])]
  dsimp only
  rw [lookupK_setK_self]

/-- Reading a parameter whose value field was just written is the coded
coercion of the written value at the declared type. -/
theorem leafValueRead_set_value (pkvs2 : Entries) (t : String) (X : PyVal)
    (htype2 : lookupK pkvs2 "type" = some (PyVal.s t)) :
    leafValueRead (setK pkvs2 "value" X) = valueCoerceCode t X := by
  rw [leafValueRead.eq_def]
  rw [if_pos (hasK_setK_self pkvs2 "value" X), lookupK_setK_self]
  have ht : lookupK (setK pkvs2 "value" X) "type" = some (PyVal.s t) := by
    rw [lookupK_setK_ne pkvs2 "value" "type" X (by decide), htype2]
  rw [ht]

/-- Which Python values count as inhabitants of a scalar schema type. -/
def scalarRep (t : String) (v : PyVal) : Bool :=
  if t = "int" then (match v with | PyVal.i _ => true | _ => false)
  else if t = "float" then (match v with | PyVal.f _ => true | _ => false)
  else if t = "bool" then (match v with | PyVal.b _ => true | _ => false)
  else if t = "str" ∨ t = "file" ∨ t = "dir" then
    (match v with | PyVal.s _ => true | _ => false)
  else false

/-- The element type of a sequence schema type. -/
def elemOf (t : String) : String :=
  if t = "[int]" then "int" else if t = "[float]" then "float"
  else if t = "[str]" then "str" else if t = "[file]" then "file"
  else if t = "[dir]" then "dir" else ""

/-- Which Python values are representable in a schema type (the claim's
"value v representable in T"): native values of the scalar kinds, and lists
of such for the sequence kinds. -/
def representable (t : String) (v : PyVal) : Bool :=
  if t = "[int]" ∨ t = "[float]" ∨ t = "[str]" ∨ t = "[file]" ∨ t = "[dir]" then
    match v with
    | PyVal.l items => items.all (scalarRep (elemOf t))
    | _ => false
  else scalarRep t v

/-- Modelled from the spec: the read-back coercion the claim describes,
written from the spec's own words (amended only in the sequence clause).
A scalar is stored as its text `str(v)`; int parameters cast the stored text
back, float parameters cast it (identity on the repr-string model), bool
parameters are decided by comparison of the stored text with the canonical
truthy token `'true'`; sequence values are stored as given and int/float
sequences are cast element-wise on read, while all OTHER sequences —
including bool sequences, which the unamended claim would also token-compare
— are returned exactly as stored. -/
def coerceOnRead (t : String) (v : PyVal) : PyVal :=
  if t = "int" then
    (match parseInt (pyStr v) with
     | some n => PyVal.i n
     | Option.none => PyVal.null)
  else if t = "float" then PyVal.f (pyStr v)
  else if t = "bool" then PyVal.b (pyStr v = "true")
  else if typeIsList t then
    (match v with
     | PyVal.l items =>
        if typeHasInt t then
          (match castList intCast items with
           | some xs => PyVal.l xs
           | Option.none => PyVal.null)
        else if typeHasFloat t then
          (match castList floatCast items with
           | some xs => PyVal.l xs
           | Option.none => PyVal.null)
        else PyVal.l items
     | _ => v)
  else PyVal.s (pyStr v)

theorem castList_cons (f : PyVal → Option PyVal) (x : PyVal) (xs : List PyVal) :
    castList f (x :: xs) =
      (match f x, castList f xs with
       | some y, some ys => some (y :: ys)
       | _, _ => Option.none) := rfl

theorem castList_int_all (items : List PyVal)
    (h : items.all (scalarRep "int") = true) :
    castList intCast items = some items := by
  induction items with
  | nil => rfl
  | cons x xs ih =>
      rw [List.all_cons, Bool.and_eq_true] at h
      obtain ⟨h1, h2⟩ := h
      have hx : intCast x = some x := by
        cases x <;> first | rfl | exact absurd h1 (by simp [scalarRep])
      rw [castList_cons, hx, ih h2]

theorem castList_float_all (items : List PyVal)
    (h : items.all (scalarRep "float") = true) :
    castList floatCast items = some items := by
  induction items with
  | nil => rfl
  | cons x xs ih =>
      rw [List.all_cons, Bool.and_eq_true] at h
      obtain ⟨h1, h2⟩ := h
      have hx : floatCast x = some x := by
        cases x <;> first | rfl | exact absurd h1 (by simp [scalarRep])
      rw [castList_cons, hx, ih h2]

/-- Representable values live on the matching side of the list/scalar split. -/
theorem representable_listness (t : String) (v : PyVal)
    (hrep : representable t v = true) : typeIsList t = isListV v := by
  unfold representable at hrep
  by_cases hL : t = "[int]" ∨ t = "[float]" ∨ t = "[str]" ∨ t = "[file]" ∨ t = "[dir]"
  · rw [if_pos hL] at hrep
    have hTL : typeIsList t = true := by
      rcases hL with h | h | h | h | h <;> subst h <;> rfl
    cases v <;> first | (rw [hTL]; rfl) | exact Bool.noConfusion hrep
  · rw [if_neg hL] at hrep
    unfold scalarRep at hrep
    by_cases h1 : t = "int"
    · subst h1
      cases v <;> first | rfl | exact Bool.noConfusion hrep
    · rw [if_neg h1] at hrep
      by_cases h2 : t = "float"
      · subst h2
        cases v <;> first | rfl | exact Bool.noConfusion hrep
      · rw [if_neg h2] at hrep
        by_cases h3 : t = "bool"
        · subst h3
          cases v <;> first | rfl | exact Bool.noConfusion hrep
        · rw [if_neg h3] at hrep
          by_cases h4 : t = "str" ∨ t = "file" ∨ t = "dir"
          · rw [if_pos h4] at hrep
            have hTL : typeIsList t = false := by
              rcases h4 with h | h | h <;> subst h <;> rfl
            cases v <;> first | (rw [hTL]; rfl) | exact Bool.noConfusion hrep
          · rw [if_neg h4] at hrep
            exact Bool.noConfusion hrep
/-- The value written by a representable `set` reads back as exactly the
coercion the (amended) spec describes, for each of the ten schema types. -/
theorem valueCoerceCode_spec (t : String) (v : PyVal)
    (hrep : representable t v = true) :
    valueCoerceCode t (if typeIsList t then v else PyVal.s (pyStr v))
      = some (false, coerceOnRead t v) := by
  unfold representable at hrep
  by_cases hL : t = "[int]" ∨ t = "[float]" ∨ t = "[str]" ∨ t = "[file]" ∨ t = "[dir]"
  · rw [if_pos hL] at hrep
    cases v with
    | l items =>
        rcases hL with h | h | h | h | h <;> subst h
        · have hall : items.all (scalarRep "int") = true := hrep
          have hcast := castList_int_all items hall
          have hTL : typeIsList "[int]" = true := by decide
          rw [if_pos hTL, valueCoerceCode.eq_def, if_pos hTL]
          dsimp only
          rw [if_pos (by decide : typeHasInt "[int]" = true), hcast]
          rw [coerceOnRead.eq_def,
            if_neg (by decide : ¬ ("[int]" : String) = "int"),
            if_neg (by decide : ¬ ("[int]" : String) = "float"),
            if_neg (by decide : ¬ ("[int]" : String) = "bool"), if_pos hTL]
          dsimp only
          rw [if_pos (by decide : typeHasInt "[int]" = true), hcast]
          rfl
        · have hall : items.all (scalarRep "float") = true := hrep
          have hcast := castList_float_all items hall
          have hTL : typeIsList "[float]" = true := by decide
          rw [if_pos hTL, valueCoerceCode.eq_def, if_pos hTL]
          dsimp only
          rw [if_neg (by decide : ¬ typeHasInt "[float]" = true),
            if_pos (by decide : typeHasFloat "[float]" = true), hcast]
          rw [coerceOnRead.eq_def,
            if_neg (by decide : ¬ ("[float]" : String) = "int"),
            if_neg (by decide : ¬ ("[float]" : String) = "float"),
            if_neg (by decide : ¬ ("[float]" : String) = "bool"), if_pos hTL]
          dsimp only
          rw [if_neg (by decide : ¬ typeHasInt "[float]" = true),
            if_pos (by decide : typeHasFloat "[float]" = true), hcast]
          rfl
        · have hTL : typeIsList "[str]" = true := by decide
          rw [if_pos hTL, valueCoerceCode.eq_def, if_pos hTL]
          dsimp only
          rw [if_neg (by decide : ¬ typeHasInt "[str]" = true),
            if_neg (by decide : ¬ typeHasFloat "[str]" = true)]
          rw [coerceOnRead.eq_def,
            if_neg (by decide : ¬ ("[str]" : String) = "int"),
            if_neg (by decide : ¬ ("[str]" : String) = "float"),
            if_neg (by decide : ¬ ("[str]" : String) = "bool"), if_pos hTL]
          dsimp only
          rw [if_neg (by decide : ¬ typeHasInt "[str]" = true),
            if_neg (by decide : ¬ typeHasFloat "[str]" = true)]
        · have hTL : typeIsList "[file]" = true := by decide
          rw [if_pos hTL, valueCoerceCode.eq_def, if_pos hTL]
          dsimp only
          rw [if_neg (by decide : ¬ typeHasInt "[file]" = true),
            if_neg (by decide : ¬ typeHasFloat "[file]" = true)]
          rw [coerceOnRead.eq_def,
            if_neg (by decide : ¬ ("[file]" : String) = "int"),
            if_neg (by decide : ¬ ("[file]" : String) = "float"),
            if_neg (by decide : ¬ ("[file]" : String) = "bool"), if_pos hTL]
          dsimp only
          rw [if_neg (by decide : ¬ typeHasInt "[file]" = true),
            if_neg (by decide : ¬ typeHasFloat "[file]" = true)]
        · have hTL : typeIsList "[dir]" = true := by decide
          rw [if_pos hTL, valueCoerceCode.eq_def, if_pos hTL]
          dsimp only
          rw [if_neg (by decide : ¬ typeHasInt "[dir]" = true),
            if_neg (by decide : ¬ typeHasFloat "[dir]" = true)]
          rw [coerceOnRead.eq_def,
            if_neg (by decide : ¬ ("[dir]" : String) = "int"),
            if_neg (by decide : ¬ ("[dir]" : String) = "float"),
            if_neg (by decide : ¬ ("[dir]" : String) = "bool"), if_pos hTL]
          dsimp only
          rw [if_neg (by decide : ¬ typeHasInt "[dir]" = true),
            if_neg (by decide : ¬ typeHasFloat "[dir]" = true)]
    | node kvs => exact Bool.noConfusion hrep
    | s a => exact Bool.noConfusion hrep
    | i a => exact Bool.noConfusion hrep
    | f a => exact Bool.noConfusion hrep
    | b a => exact Bool.noConfusion hrep
    | null => exact Bool.noConfusion hrep
  · rw [if_neg hL] at hrep
    unfold scalarRep at hrep
    by_cases h1 : t = "int"
    · subst h1
      cases v with
      | i n =>
          have hTL : ¬ typeIsList "int" = true := by decide
          rw [if_neg hTL, valueCoerceCode.eq_def, if_neg hTL]
          dsimp only
          rw [if_pos rfl]
          have hps : pyStr (PyVal.i n) = intRepr n := rfl
          have hint : intCast (PyVal.s (pyStr (PyVal.i n))) = some (PyVal.i n) := by
            rw [intCast, hps, parseInt_intRepr]
            rfl
          rw [hint]
          rw [coerceOnRead.eq_def, if_pos rfl, hps, parseInt_intRepr]
          rfl
      | node kvs => exact absurd hrep (by simp)
      | s a => exact absurd hrep (by simp)
      | l a => exact absurd hrep (by simp)
      | f a => exact absurd hrep (by simp)
      | b a => exact absurd hrep (by simp)
      | null => exact absurd hrep (by simp)
    · rw [if_neg h1] at hrep
      by_cases h2 : t = "float"
      · subst h2
        cases v with
        | f s =>
            have hTL : ¬ typeIsList "float" = true := by decide
            rw [if_neg hTL, valueCoerceCode.eq_def, if_neg hTL]
            dsimp only
            rw [if_neg (by decide : ¬ ("float" : String) = "int"), if_pos rfl]
            rw [coerceOnRead.eq_def,
              if_neg (by decide : ¬ ("float" : String) = "int"), if_pos rfl]
            rfl
        | node kvs => exact absurd hrep (by simp)
        | s a => exact absurd hrep (by simp)
        | l a => exact absurd hrep (by simp)
        | i a => exact absurd hrep (by simp)
        | b a => exact absurd hrep (by simp)
        | null => exact absurd hrep (by simp)
      · rw [if_neg h2] at hrep
        by_cases h3 : t = "bool"
        · subst h3
          cases v with
          | b bv =>
              have hTL : ¬ typeIsList "bool" = true := by decide
              rw [if_neg hTL, valueCoerceCode.eq_def, if_neg hTL]
              dsimp only
              rw [if_neg (by decide : ¬ ("bool" : String) = "int"),
                if_neg (by decide : ¬ ("bool" : String) = "float"), if_pos rfl]
              rw [coerceOnRead.eq_def,
                if_neg (by decide : ¬ ("bool" : String) = "int"),
                if_neg (by decide : ¬ ("bool" : String) = "float"), if_pos rfl]
              rfl
          | node kvs => exact absurd hrep (by simp)
          | s a => exact absurd hrep (by simp)
          | l a => exact absurd hrep (by simp)
          | i a => exact absurd hrep (by simp)
          | f a => exact absurd hrep (by simp)
          | null => exact absurd hrep (by simp)
        · rw [if_neg h3] at hrep
          by_cases h4 : t = "str" ∨ t = "file" ∨ t = "dir"
          · rw [if_pos h4] at hrep
            cases v with
            | s sv =>
                rcases h4 with h | h | h <;> subst h <;>
                  [(have hTL : ¬ typeIsList "str" = true := by decide
                    rw [if_neg hTL, valueCoerceCode.eq_def, if_neg hTL]
                    dsimp only
                    rw [if_neg (by decide : ¬ ("str" : String) = "int"),
                      if_neg (by decide : ¬ ("str" : String) = "float"),
                      if_neg (by decide : ¬ ("str" : String) = "bool")]
                    rw [coerceOnRead.eq_def,
                      if_neg (by decide : ¬ ("str" : String) = "int"),
                      if_neg (by decide : ¬ ("str" : String) = "float"),
                      if_neg (by decide : ¬ ("str" : String) = "bool"),
                      if_neg hTL]);
                   (have hTL : ¬ typeIsList "file" = true := by decide
                    rw [if_neg hTL, valueCoerceCode.eq_def, if_neg hTL]
                    dsimp only
                    rw [if_neg (by decide : ¬ ("file" : String) = "int"),
                      if_neg (by decide : ¬ ("file" : String) = "float"),
                      if_neg (by decide : ¬ ("file" : String) = "bool")]
                    rw [coerceOnRead.eq_def,
                      if_neg (by decide : ¬ ("file" : String) = "int"),
                      if_neg (by decide : ¬ ("file" : String) = "float"),
                      if_neg (by decide : ¬ ("file" : String) = "bool"),
                      if_neg hTL]);
                   (have hTL : ¬ typeIsList "dir" = true := by decide
                    rw [if_neg hTL, valueCoerceCode.eq_def, if_neg hTL]
                    dsimp only
                    rw [if_neg (by decide : ¬ ("dir" : String) = "int"),
                      if_neg (by decide : ¬ ("dir" : String) = "float"),
                      if_neg (by decide : ¬ ("dir" : String) = "bool")]
                    rw [coerceOnRead.eq_def,
                      if_neg (by decide : ¬ ("dir" : String) = "int"),
                      if_neg (by decide : ¬ ("dir" : String) = "float"),
                      if_neg (by decide : ¬ ("dir" : String) = "bool"),
                      if_neg hTL])]
            | node kvs => exact absurd hrep (by simp)
            | l a => exact absurd hrep (by simp)
            | i a => exact absurd hrep (by simp)
            | f a => exact absurd hrep (by simp)
            | b a => exact absurd hrep (by simp)
            | null => exact absurd hrep (by simp)
          · rw [if_neg h4] at hrep
            exact Bool.noConfusion hrep
/-- C1 amended: on every parameter leaf reached through an existing keypath,
for every value representable in the declared type T, `set(k, v)` followed by
`get(k)` returns v coerced to T by the mechanism the spec states —
int parameters parse their stored text `str(v)` back, float parameters cast
it, bool parameters compare the stored text with the canonical truthy token
(`set(k, True)` therefore reads back False, since `str(True) = "True"` is not
the token `'true'`), and int/float sequences are cast element-wise.  The one
amendment: sequence types OTHER than int/float — in particular bool
sequences — are returned exactly as stored, with no element-wise coercion
(see the counterexample). -/
theorem c1_set_then_get_coerces (tc : PyVal → PyVal → Bool) (ks : List String)
    (k : String) (cfg : PyVal) (kvs pkvs : Entries) (t : String) (dv v : PyVal)
    (hres : resolvePath cfg ks = some (PyVal.node kvs))
    (hlk : lookupK kvs k = some (PyVal.node pkvs))
    (htype : lookupK pkvs "type" = some (PyVal.s t))
    (hdv : lookupK pkvs "defvalue" = some dv)
    (hrep : representable t v = true) :
    ((search tc cfg (ks.map PyVal.s ++ [PyVal.s k, v]) "value" "set").bind
      (fun r => search tc r.1 ((ks ++ [k]).map PyVal.s) "value" "get")).map
      (fun r => r.2.2) = some (coerceOnRead t v) := by
  obtain ⟨pkvs2, hmat⟩ := withValue_exists pkvs dv hdv
  have htype2 : lookupK pkvs2 "type" = some (PyVal.s t) := by
    rw [withValue_type pkvs pkvs2 hmat, htype]
  have hTL := representable_listness t v hrep
  have hstore : ∃ e, leafSetAdd tc kvs k v "value" "set" =
      some (setK kvs k (PyVal.node (setK pkvs2 "value"
        (if typeIsList t then v else PyVal.s (pyStr v)))), e,
        (if typeIsList t then v else PyVal.s (pyStr v))) := by
    by_cases hl : typeIsList t = true
    · have hv : isListV v = true := by rw [← hTL]; exact hl
      simp only [if_pos hl]
      exact ⟨_, leafSetAdd_set_list_ok tc kvs k pkvs pkvs2 t v hlk htype hl hmat hv⟩
    · have hl2 : typeIsList t = false := by
        revert hl
        cases typeIsList t <;> simp
      have hv : isListV v = false := by rw [← hTL]; exact hl2
      simp only [if_neg hl]
      exact ⟨_, leafSetAdd_set_scalar_ok tc kvs k pkvs pkvs2 t v hlk htype hl2 hmat hv⟩
  obtain ⟨e, hstore⟩ := hstore
  rw [search_resolved_setadd tc "value" "set" (Or.inl rfl) ks cfg kvs k v hres,
    hstore]
  dsimp only [Option.map, Option.bind]
  have hres2 := resolvePath_updatePath ks cfg kvs
    (setK kvs k (PyVal.node (setK pkvs2 "value"
      (if typeIsList t then v else PyVal.s (pyStr v))))) hres
  rw [search_resolved_leaf tc "value" "get"
        (by intro hc; rcases hc with h | h <;> exact absurd h (by decide))
        ks _ _ k hres2,
    leafGetKeys_value _ k _ (lookupK_setK_self kvs k _),
    leafValueRead_set_value pkvs2 t _ htype2,
    valueCoerceCode_spec t v hrep]
  rfl

theorem c1_witness :
    ((search tcTrue (PyVal.node [("width", PyVal.node intParam)])
        (([] : List String).map PyVal.s ++ [PyVal.s "width", PyVal.i 42])
        "value" "set").bind
      (fun r => search tcTrue r.1 ((([] : List String) ++ ["width"]).map PyVal.s)
        "value" "get")).map (fun r => r.2.2)
      = some (coerceOnRead "int" (PyVal.i 42)) :=
  c1_set_then_get_coerces tcTrue [] "width"
    (PyVal.node [("width", PyVal.node intParam)]) [("width", PyVal.node intParam)]
    intParam "int" PyVal.null (PyVal.i 42) rfl rfl rfl rfl (by decide)

/-- A bool-sequence parameter for the C1 counterexample. -/
def boolListCfg : Entries :=
  [("flag", PyVal.node [("type", PyVal.s "[bool]"), ("defvalue", PyVal.l [])])]

/-- C1 counterexample: the claim as stated covers sequences of every scalar
kind, with "sequence parameters returned element-wise coerced" — for a
`[bool]` parameter the claim's bool coercion (comparison with the canonical
truthy token) would turn the stored token `'true'` into the boolean True.
The code has no cast branch for bool sequences (core.py 764-770 casts only
int and float element types), so `get` after `set(['true'])` returns the
string `'true'` unchanged, not the boolean. -/
theorem c1_counterexample :
    ((search tcTrue (PyVal.node boolListCfg)
        [PyVal.s "flag", PyVal.l [PyVal.s "true"]] "value" "set").bind
      (fun r => search tcTrue r.1 [PyVal.s "flag"] "value" "get")).map
      (fun r => r.2.2) = some (PyVal.l [PyVal.s "true"]) ∧
    PyVal.l [PyVal.s "true"] ≠ PyVal.l [PyVal.b true] :=
  ⟨rfl, fun h => PyVal.noConfusion (List.cons.inj (PyVal.l.inj h)).1⟩
theorem strList_map_s (l : List (String × PyVal)) :
    strList (l.map (fun e => PyVal.s e.1)) = some (l.map Prod.fst) := by
  induction l with
  | nil => rfl
  | cons hd tl ih =>
      rw [List.map_cons, strList, ih]
      rfl

theorem nodup_not_mem_erase (l : List String) (a : String) (h : l.Nodup) :
    a ∉ l.erase a := by
  induction l with
  | nil => simp
  | cons hd tl ih =>
      rw [List.nodup_cons] at h
      by_cases he : hd = a
      · subst he
        rw [List.erase_cons_head]
        exact h.1
      · rw [List.erase_cons_tail (by simp [he])]
        intro hmem
        rcases List.mem_cons.mp hmem with hc | hc
        · exact he hc.symm
        · exact ih h.2 hc

/-- A fixture for the C9 counterexample: a tree whose only leaf lives under a
`default` prototype branch. -/
def defaultLeafCfg : PyVal :=
  PyVal.node [("a", PyVal.node
    [("default", PyVal.node [("defvalue", PyVal.null), ("type", PyVal.s "str")])])]

/-- C9 counterexample: the claim says `getkeys()` with no arguments never
returns a keypath containing a `default` segment.  But `_allkeys`
(core.py 662-678) walks every branch, `default` included — on a tree whose
only leaf sits under a `default` prototype the full enumeration is exactly
`[["a", "default"]]`.  (The callers `merge` and `check` each filter
`'default' not in keylist` themselves, which is how the code acknowledges
this.) -/
theorem c9_counterexample :
    chipGetkeysAll defaultLeafCfg = [["a", "default"]] ∧
    "default" ∈ ["a", "default"] :=
  ⟨rfl, by decide⟩

/-- C9 amended: the prefix form does exclude the prototype key — for any
prefix resolving to a dict (with the duplicate-free keys of a Python dict),
`getkeys(prefix)` returns the immediate child keys with one `'default'`
removed, so `'default'` never appears in its result;  the no-argument form,
by contrast, enumerates every leaf keypath INCLUDING those under `default`
branches (see the counterexample), and callers filter them out. -/
theorem c9_getkeys_prefix_excludes_default (tc : PyVal → PyVal → Bool)
    (ks : List String) (k : String) (cfg : PyVal) (kvs pkvs : Entries)
    (hres : resolvePath cfg ks = some (PyVal.node kvs))
    (hlk : lookupK kvs k = some (PyVal.node pkvs))
    (hnd : (pkvs.map Prod.fst).Nodup) :
    chipGetkeysPrefix tc cfg (ks ++ [k]) =
      some (cfg, (pkvs.map Prod.fst).erase "default") ∧
    "default" ∉ (pkvs.map Prod.fst).erase "default" := by
  constructor
  · have hmode : ¬ (("getkeys" : String) = "set" ∨ ("getkeys" : String) = "add") := by
      intro hc
      rcases hc with h | h <;> exact absurd h (by decide)
    have hleaf : leafGetKeys kvs k "value" "getkeys" =
        some (false, PyVal.l (pkvs.map (fun e => PyVal.s e.1))) := by
      rw [leafGetKeys.eq_def]
      rw [if_neg (by simp [hasK, hlk]), if_pos rfl, hlk]
    rw [chipGetkeysPrefix,
      search_resolved_leaf tc "value" "getkeys" hmode ks cfg kvs k hres, hleaf]
    dsimp only [Option.map]
    rw [strList_map_s]
  · exact nodup_not_mem_erase (pkvs.map Prod.fst) "default" hnd

theorem c9_witness :
    chipGetkeysPrefix tcTrue (PyVal.node [("flowgraph", PyVal.node cfgProto)])
      ([] ++ ["flowgraph"]) =
      some (PyVal.node [("flowgraph", PyVal.node cfgProto)],
        (cfgProto.map Prod.fst).erase "default") ∧
    "default" ∉ (cfgProto.map Prod.fst).erase "default" :=
  c9_getkeys_prefix_excludes_default tcTrue [] "flowgraph"
    (PyVal.node [("flowgraph", PyVal.node cfgProto)])
    [("flowgraph", PyVal.node cfgProto)] cfgProto rfl rfl (by decide)
theorem updatePath_self (ks : List String) (cfg : PyVal) (kvs : Entries)
    (hres : resolvePath cfg ks = some (PyVal.node kvs)) :
    updatePath cfg ks kvs = cfg := by
  induction ks generalizing cfg with
  | nil =>
      simp only [resolvePath, Option.some.injEq] at hres
      rw [updatePath, hres]
  | cons k0 kt ih =>
      match cfg with
      | PyVal.node kvs0 =>
          simp only [resolvePath] at hres
          cases hlk : lookupK kvs0 k0 with
          | none => rw [hlk] at hres; exact Option.noConfusion hres
          | some child =>
              rw [hlk] at hres
              rw [updatePath, hlk]
              dsimp only [Option.getD]
              rw [ih child hres, setK_lookup_self kvs0 k0 child hlk]
      | PyVal.s v => simp [resolvePath] at hres
      | PyVal.l v => simp [resolvePath] at hres
      | PyVal.i v => simp [resolvePath] at hres
      | PyVal.f v => simp [resolvePath] at hres
      | PyVal.b v => simp [resolvePath] at hres
      | PyVal.null => simp [resolvePath] at hres

/-- The shape hypothesis for the amended C7: a leaf keypath that resolves to
a str-typed parameter whose value is a set string. -/
def StrLeafAt (t : PyVal) (kl : List String) : Prop :=
  ∃ pre k kvs pkvs sv, kl = pre ++ [k] ∧
    resolvePath t pre = some (PyVal.node kvs) ∧
    lookupK kvs k = some (PyVal.node pkvs) ∧
    lookupK pkvs "type" = some (PyVal.s "str") ∧
    lookupK pkvs "value" = some (PyVal.s sv)

theorem mergeLoop_self_id (tc : PyVal → PyVal → Bool) (t : PyVal)
    (kls : List (List String))
    (h : ∀ kl ∈ kls, "default" ∉ kl → StrLeafAt t kl) :
    ∀ e0, ∃ e, mergeLoop tc kls t t e0 = some (t, t, e) := by
  induction kls with
  | nil => exact fun e0 => ⟨e0, rfl⟩
  | cons kl rest ih =>
      intro e0
      have hrest : ∀ kl2 ∈ rest, "default" ∉ kl2 → StrLeafAt t kl2 :=
        fun kl2 hm => h kl2 (List.mem_cons_of_mem kl hm)
      by_cases hdef : kl.contains "default" = true
      · rw [mergeLoop, if_pos hdef]
        exact ih hrest e0
      · have hnd : "default" ∉ kl := by
          intro hmem
          exact hdef (List.elem_eq_true_of_mem hmem)
        obtain ⟨pre, k, kvs, pkvs, sv, hkl, hres, hlk, htype, hval⟩ :=
          h kl (List.mem_cons_self kl rest) hnd
        have hgetmode : ¬ (("get" : String) = "set" ∨ ("get" : String) = "add") := by
          intro hc
          rcases hc with hm | hm <;> exact absurd hm (by decide)
        have hkT : hasK pkvs "type" = true := by simp [hasK, htype]
        have hkV : hasK pkvs "value" = true := by simp [hasK, hval]
        -- reading the type field
        have hgetT : search tc t (kl.map PyVal.s) "type" "get" =
            some (t, false, PyVal.s "str") := by
          rw [hkl, search_resolved_leaf tc "type" "get" hgetmode pre t kvs k hres]
          have hleaf : leafGetKeys kvs k "type" "get" = some (false, PyVal.s "str") := by
            rw [leafGetKeys.eq_def]
            rw [if_neg (by simp [hasK, hlk]), if_neg (by decide), hlk]
            dsimp only
            rw [if_neg (by simp [hkT]), if_neg (by decide), htype]
          rw [hleaf]
          rfl
        -- reading the value field
        have hgetV : search tc t (kl.map PyVal.s) "value" "get" =
            some (t, false, PyVal.s sv) := by
          rw [hkl, search_resolved_leaf tc "value" "get" hgetmode pre t kvs k hres]
          have hleaf : leafGetKeys kvs k "value" "get" = some (false, PyVal.s sv) := by
            rw [leafGetKeys_value kvs k pkvs hlk, leafValueRead.eq_def]
            rw [if_pos hkV, hval, htype]
            dsimp only
            rw [valueCoerceCode.eq_def]
            rw [if_neg (by decide : ¬ typeIsList "str" = true)]
            dsimp only
            rw [if_neg (by decide : ¬ ("str" : String) = "int"),
              if_neg (by decide : ¬ ("str" : String) = "float"),
              if_neg (by decide : ¬ ("str" : String) = "bool")]
          rw [hleaf]
          rfl
        -- writing the same value back is the identity
        have hmat : withValue pkvs = some pkvs := by
          rw [withValue, if_pos hkV]
        have hsetV : search tc t (kl.map PyVal.s ++ [PyVal.s sv]) "value" "set" =
            some (t, (decide (¬ hasK pkvs "value" = true ∧ ("value" : String) ≠ "value") ||
             decide (¬ tc (PyVal.node pkvs) (PyVal.s sv) = true) || false), PyVal.s sv) := by
          have hmap : kl.map PyVal.s ++ [PyVal.s sv] =
              pre.map PyVal.s ++ [PyVal.s k, PyVal.s sv] := by
            rw [hkl]
            simp
          rw [hmap,
            search_resolved_setadd tc "value" "set" (Or.inl rfl) pre t kvs k
              (PyVal.s sv) hres,
            leafSetAdd_set_scalar_ok tc kvs k pkvs pkvs "str" (PyVal.s sv)
              hlk htype (by decide) hmat rfl]
          dsimp only [Option.map]
          have hid : setK pkvs "value" (PyVal.s (pyStr (PyVal.s sv))) = pkvs :=
            setK_lookup_self pkvs "value" (PyVal.s sv) hval
          rw [hid, setK_lookup_self kvs k (PyVal.node pkvs) hlk,
            updatePath_self pre t kvs hres]
          rfl
        rw [mergeLoop, if_neg hdef]
        dsimp only [chipGet]
        rw [hgetT]
        dsimp only
        rw [hgetV]
        dsimp only
        rw [if_neg (by decide : ¬ typeIsList "str" = true)]
        rw [show chipSet tc t kl (PyVal.s sv) =
          search tc t (kl.map PyVal.s ++ [PyVal.s sv]) "value" "set" from rfl, hsetV]
        exact ih hrest _

/-- A list-typed fixture for the C7 counterexample. -/
def listLeafCfg : PyVal :=
  PyVal.node [("x", PyVal.node [("type", PyVal.s "[str]"),
    ("defvalue", PyVal.l []), ("value", PyVal.l [PyVal.s "a"])])]

/-- C7 counterexample: `merge(t, t)` re-applies every sequence leaf with
`add` (core.py 1030-1031), which EXTENDS the copy's list with the overlay's
items: merging a tree holding the one-element list `['a']` with itself yields
`['a','a']`.  Pruning keeps both leaves (values are non-empty), so the pruned
merge result and the pruned original disagree on the value of keypath `x` —
they are not value-equal under any reading. -/
theorem c7_counterexample :
    (mergeModel tcTrue listLeafCfg listLeafCfg).map (fun r =>
      (search tcTrue (pruneModel r.1) [PyVal.s "x"] "value" "get").map
        (fun g => g.2.2))
      = some (some (PyVal.l [PyVal.s "a", PyVal.s "a"])) ∧
    (search tcTrue (pruneModel listLeafCfg) [PyVal.s "x"] "value" "get").map
        (fun g => g.2.2) = some (PyVal.l [PyVal.s "a"]) ∧
    PyVal.l [PyVal.s "a", PyVal.s "a"] ≠ PyVal.l [PyVal.s "a"] :=
  ⟨rfl, rfl, fun h => List.noConfusion (List.cons.inj (PyVal.l.inj h)).2⟩

/-- C7 amended: `prune(merge(t, t))` is value-equal to `prune(t)` for trees
whose non-default leaves are all scalar string-typed parameters with their
value set — there `merge(t, t)` re-sets every leaf to its own value and is
the identity, so the pruned trees agree exactly.  In general the property
fails: sequence leaves are duplicated by the self-merge (counterexample),
and re-stringification breaks bool (`str(True) = 'True'`) and unset
(`str(None) = 'None'`) scalars. -/
theorem c7_merge_self_prune (tc : PyVal → PyVal → Bool) (t : PyVal)
    (h : ∀ kl ∈ chipGetkeysAll t, "default" ∉ kl → StrLeafAt t kl) :
    ∃ e, mergeModel tc t t = some (t, t, e) ∧
      (mergeModel tc t t).map (fun r => pruneModel r.1) = some (pruneModel t) := by
  obtain ⟨e, he⟩ := mergeLoop_self_id tc t (chipGetkeysAll t) h false
  refine ⟨e, he, ?_⟩
  rw [show mergeModel tc t t = mergeLoop tc (chipGetkeysAll t) t t false from rfl, he]
  rfl

/-- A str-typed fixture for the C7 witness. -/
def strLeafCfg : PyVal :=
  PyVal.node [("design", PyVal.node [("type", PyVal.s "str"),
    ("defvalue", PyVal.s "null"), ("value", PyVal.s "gcd")])]

theorem c7_witness :
    ∃ e, mergeModel tcTrue strLeafCfg strLeafCfg = some (strLeafCfg, strLeafCfg, e) ∧
      (mergeModel tcTrue strLeafCfg strLeafCfg).map (fun r => pruneModel r.1)
        = some (pruneModel strLeafCfg) :=
  c7_merge_self_prune tcTrue strLeafCfg (by
    intro kl hkl hnd
    have hkl2 : kl = ["design"] := by
      simpa [chipGetkeysAll, allkeys, allkeysEntries, strLeafCfg, pvHasDefvalue,
        hasK, lookupK] using hkl
    subst hkl2
    exact ⟨[], "design", _, _, "gcd", rfl, rfl, rfl, rfl, rfl⟩)

/-- A chain of `n+1` nested dicts ending in an empty dict: `chainN 0 = \x7b\x7d`,
`chainN (n+1) = \x7b'a': chainN n\x7d`.  Fixture for the C8 counterexample. -/
def chainN : Nat → PyVal
  | 0 => PyVal.node []
  | n + 1 => PyVal.node [("a", chainN n)]

/-- C8 counterexample: `prune` runs its sweep exactly `maxdepth = 10` times
(core.py 862, 885: "10 should be enough for anyone..."), and one sweep deletes
only the innermost empty dict of a chain.  On a 12-level chain of empty dicts
the first `prune` stops at `\x7b'a': \x7b\x7d\x7d` while a second `prune`
erases that remnant, so `prune(prune(t)) != prune(t)` — both structurally and
under Python value equality (`pvBeq`). -/
theorem c8_counterexample :
    pruneModel (pruneModel (chainN 11)) ≠ pruneModel (chainN 11) ∧
    pvBeq (pruneModel (pruneModel (chainN 11))) (pruneModel (chainN 11)) = false := by
  have e1 : pruneModel (chainN 11) = PyVal.node [("a", PyVal.node [])] := rfl
  have e2 : pruneModel (pruneModel (chainN 11)) = PyVal.node [] := rfl
  refine ⟨?_, rfl⟩
  intro h
  rw [e2, e1] at h
  exact List.noConfusion (PyVal.node.inj h)

/-- C8 amended: `prune` is idempotent exactly on trees whose pruning has
stabilized within the hard cap of 10 sweeps — whenever one further sweep
leaves `prune(t)` unchanged, `prune(prune(t)) = prune(t)`.  The unconditional
claim is false: the cap is a fixed constant, so any tree needing more than 10
sweeps (e.g. a chain of 12 nested empty dicts) is pruned further by a second
call (counterexample). -/
theorem c8_prune_idempotent_on_stable (t : PyVal)
    (h : sweep (pruneModel t) = pruneModel t) :
    pruneModel (pruneModel t) = pruneModel t :=
  Function.iterate_fixed h 10

theorem c8_witness :
    sweep (pruneModel (chainN 1)) = pruneModel (chainN 1) ∧
    pruneModel (pruneModel (chainN 1)) = pruneModel (chainN 1) :=
  ⟨rfl, c8_prune_idempotent_on_stable (chainN 1) rfl⟩
